import Mathlib

/-!
# Auction bid simulation: `x/auction/simulation/operations.go`

A shallow embedding of the bid generator of the auction module's simulation
package, and theorems about it.

Conventions of the embedding.

* `sdk.Int` (a wrapper of `math/big.Int`) is the type `Int`; `sdk.Coin` is a
  denomination with an amount; `sdk.Coins` is a list of coins. The library's
  validity panics (an `sdk.Int` past its bit length, `sdk.NewCoin` on a negative
  amount or a malformed denomination) are outside the model.
* `sdk.Dec` is the fixed-point decimal of the cosmos-sdk: an integer scaled by
  `10^18`. `Mul` and `RoundInt` chop the eighteen low digits with the library's
  `chopPrecisionAndRound`.
* `*rand.Rand` is a state `r : R` with the two draws the file makes on it,
  `new(big.Int).Rand(r, n)` and `r.Intn(n)`, each returning the drawn value and
  the advanced state.
* A Go function returning `(T, error)` that may also `panic(err)` returns a
  `Result T`, paired with the random state it leaves behind.
* The callback of `findValidAccountAuctionPair` reads and changes a state `s : S`
  and returns its answer with the new state; a result `(acc, auc, true)` is
  `some (acc, auc)` and a result with `false` is `none`.
-/

namespace Simulation

/-! ## cosmos-sdk values -/

/-- The type `sdk.Coin`: a denomination and an amount. -/
structure Coin where
  Denom : String
  Amount : Int
deriving DecidableEq, Repr

/-- The type `sdk.Coins`. -/
abbrev Coins := List Coin

/-- The method `Coins.AmountOf`: the amount held of `denom`, zero when the
denomination is absent. -/
def Coins.AmountOf (coins : Coins) (denom : String) : Int :=
  match coins.find? (fun c => c.Denom == denom) with
  | some c => c.Amount
  | none => 0

/-- The function `sdk.MaxInt`. -/
def MaxInt (i i2 : Int) : Int := if i > i2 then i else i2

/-- The function `sdk.MinInt`. -/
def MinInt (i i2 : Int) : Int := if i > i2 then i2 else i

/-- The type `sdk.Dec`: the field `i` holds the value times `10^18`. -/
structure Dec where
  i : Int
deriving DecidableEq, Repr

/-- The constant `precisionReuse` of the decimal: `10^18`. -/
def precisionReuse : Int := 1000000000000000000

/-- The constant `fivePrecision` of the decimal: half of `precisionReuse`. -/
def fivePrecision : Int := 500000000000000000

/-- The non-negative branch of `chopPrecisionAndRound`: truncated quotient and
remainder by `10^18`, then round to nearest, a tie going to the even quotient. -/
def chopPrecisionAndRoundNonNeg (d : Int) : Int :=
  let quo := Int.tdiv d precisionReuse
  let rem := Int.tmod d precisionReuse
  if rem = 0 then quo
  else if rem < fivePrecision then quo
  else if rem > fivePrecision then quo + 1
  else if quo % 2 = 0 then quo
  else quo + 1

/-- The function `chopPrecisionAndRound`: a negative input is negated, chopped
and negated back. -/
def chopPrecisionAndRound (d : Int) : Int :=
  if d < 0 then -(chopPrecisionAndRoundNonNeg (-d)) else chopPrecisionAndRoundNonNeg d

/-- The function `sdk.NewDecFromInt`. -/
def NewDecFromInt (i : Int) : Dec := ⟨i * precisionReuse⟩

/-- The method `Dec.Mul`. -/
def Dec.Mul (d d2 : Dec) : Dec := ⟨chopPrecisionAndRound (d.i * d2.i)⟩

/-- The method `Dec.RoundInt`. -/
def Dec.RoundInt (d : Dec) : Int := chopPrecisionAndRound d.i

/-! ## Errors and results -/

/-- The error values of the file: the two package variables and the three
`fmt.Errorf` messages. -/
inductive Err where
  | errorNotEnoughCoins
  | errorCantReceiveBids
  | unknownAuctionType
  | minLargerThanMax
  | minLargerOrEqualToMax
deriving DecidableEq, Repr

/-- The outcome of a call: a value with a nil error, a returned error, or a
`panic(err)`. -/
inductive Result (α : Type) where
  | ok (v : α)
  | error (e : Err)
  | panic (e : Err)
deriving DecidableEq, Repr

/-! ## The random source -/

/-- The two draws made on a `*rand.Rand` whose state has type `R`:
`Rand r n` is `new(big.Int).Rand(r, n)` and `Intn r n` is `r.Intn(n)`. -/
structure RandOps (R : Type) where
  Rand : R → Int → Int × R
  Intn : R → Int → Int × R

/-- The contract of `big.Int.Rand`: for a positive bound the drawn number is
in `[0, n)`. -/
def RandOps.Bounded {R : Type} (P : RandOps R) : Prop :=
  ∀ (r : R) (n : Int), 0 < n → 0 ≤ (P.Rand r n).1 ∧ (P.Rand r n).1 < n

/-- The successor state of the sample generator `lcg`. -/
def lcgNext (s : Nat) : Nat :=
  (s * 6364136223846793005 + 1442695040888963407) % 18446744073709551616

/-- A sample random source for evaluating the definitions: a 64-bit linear
congruential state, a draw being the state reduced below the bound. -/
def lcg : RandOps Nat where
  Rand s n := (if n ≤ 0 then 0 else (s : Int) % n, lcgNext s)
  Intn s n := (if n ≤ 0 then 0 else (s : Int) % n, lcgNext s)

/-! ## RandInt and RandIntInclusive -/

/-- The function `RandInt`. -/
def RandInt {R : Type} (P : RandOps R) (r : R) (inclusiveMin exclusiveMax : Int) :
    Result Int × R :=
  if inclusiveMin ≥ exclusiveMax then (Result.error Err.minLargerOrEqualToMax, r)
  else
    let shiftedRange := exclusiveMax - inclusiveMin
    let drawn := P.Rand r shiftedRange
    let shiftedRandInt := drawn.1
    (Result.ok (shiftedRandInt + inclusiveMin), drawn.2)

/-- The function `RandIntInclusive`. -/
def RandIntInclusive {R : Type} (P : RandOps R) (r : R) (inclusiveMin inclusiveMax : Int) :
    Result Int × R :=
  if inclusiveMin > inclusiveMax then (Result.error Err.minLargerThanMax, r)
  else RandInt P r inclusiveMin (inclusiveMax + 1)

/-! ## Auctions and parameters -/

/-- Modelled from the spec: the type `types.DebtAuction` is not in the file; the
spec gives it a `bid` and a `lot`. -/
structure DebtAuction where
  Bid : Coin
  Lot : Coin
deriving DecidableEq, Repr

/-- Modelled from the spec: the type `types.SurplusAuction` is not in the file;
the spec gives it a `bid` and a `lot`. -/
structure SurplusAuction where
  Bid : Coin
  Lot : Coin
deriving DecidableEq, Repr

/-- Modelled from the spec: the type `types.CollateralAuction` is not in the
file; the spec gives it a `bid`, a `lot` and a `maxBid`. -/
structure CollateralAuction where
  Bid : Coin
  Lot : Coin
  MaxBid : Coin
deriving DecidableEq, Repr

/-- Modelled from the spec: the method `IsReversePhase` is not in the file; the
spec has the auction in reverse phase exactly when `bid.amount` equals
`maxBid.amount`. -/
def CollateralAuction.IsReversePhase (a : CollateralAuction) : Bool :=
  decide (a.Bid.Amount = a.MaxBid.Amount)

/-- Modelled from the spec: the interface `types.Auction` is not in the file; the
type switch of `generateBidAmount` tells three dynamic types from every other. -/
inductive Auction where
  | debt (a : DebtAuction)
  | surplus (a : SurplusAuction)
  | collateral (a : CollateralAuction)
  | unknown
deriving DecidableEq, Repr

/-- Modelled from the spec: the type `types.Params` is not in the file; the bid
generator reads its three increment fractions. -/
structure Params where
  IncrementSurplus : Dec
  IncrementDebt : Dec
  IncrementCollateral : Dec
deriving DecidableEq, Repr

/-! ## generateBidAmount -/

/-- The function `generateBidAmount`. The argument `blockTime` is accepted and
never read, as in the source. -/
def generateBidAmount {R : Type} (P : RandOps R) (r : R) (params : Params) (auc : Auction)
    (bidderBalance : Coins) (_blockTime : Int) : Result Coin × R :=
  match auc with
  | Auction.debt a =>
    if bidderBalance.AmountOf a.Bid.Denom < a.Bid.Amount then
      (Result.error Err.errorNotEnoughCoins, r)
    else if a.Lot.Amount = 0 then
      (Result.error Err.errorCantReceiveBids, r)
    else
      let maxNewLotAmt := a.Lot.Amount -
        MaxInt 1 ((NewDecFromInt a.Lot.Amount).Mul params.IncrementDebt).RoundInt
      match RandIntInclusive P r 0 maxNewLotAmt with
      | (Result.ok amt, r1) => (Result.ok ⟨a.Lot.Denom, amt⟩, r1)
      | (Result.error err, r1) => (Result.panic err, r1)
      | (Result.panic err, r1) => (Result.panic err, r1)
  | Auction.surplus a =>
    let minNewBidAmt := a.Bid.Amount +
      MaxInt 1 ((NewDecFromInt a.Bid.Amount).Mul params.IncrementSurplus).RoundInt
    if bidderBalance.AmountOf a.Bid.Denom < minNewBidAmt then
      (Result.error Err.errorNotEnoughCoins, r)
    else
      match RandIntInclusive P r minNewBidAmt (bidderBalance.AmountOf a.Bid.Denom) with
      | (Result.ok amt, r1) => (Result.ok ⟨a.Bid.Denom, amt⟩, r1)
      | (Result.error err, r1) => (Result.panic err, r1)
      | (Result.panic err, r1) => (Result.panic err, r1)
  | Auction.collateral a =>
    let minNewBidAmt := MinInt
      (a.Bid.Amount +
        MaxInt 1 ((NewDecFromInt a.Bid.Amount).Mul params.IncrementCollateral).RoundInt)
      a.MaxBid.Amount
    if bidderBalance.AmountOf a.Bid.Denom < minNewBidAmt then
      (Result.error Err.errorNotEnoughCoins, r)
    else if a.IsReversePhase ∧ a.Lot.Amount = 0 then
      (Result.error Err.errorCantReceiveBids, r)
    else if a.IsReversePhase then
      let maxNewLotAmt := a.Lot.Amount -
        MaxInt 1 ((NewDecFromInt a.Lot.Amount).Mul params.IncrementCollateral).RoundInt
      match RandIntInclusive P r 0 maxNewLotAmt with
      | (Result.ok amt, r1) => (Result.ok ⟨a.Lot.Denom, amt⟩, r1)
      | (Result.error err, r1) => (Result.panic err, r1)
      | (Result.panic err, r1) => (Result.panic err, r1)
    else
      match RandIntInclusive P r minNewBidAmt
          (MinInt (bidderBalance.AmountOf a.Bid.Denom) a.MaxBid.Amount) with
      | (Result.ok amt, r1) =>
        let flip := P.Intn r1 2
        if flip.1 = 0 ∧ bidderBalance.AmountOf a.Bid.Denom ≥ a.MaxBid.Amount then
          (Result.ok ⟨a.Bid.Denom, a.MaxBid.Amount⟩, flip.2)
        else
          (Result.ok ⟨a.Bid.Denom, amt⟩, flip.2)
      | (Result.error err, r1) => (Result.panic err, r1)
      | (Result.panic err, r1) => (Result.panic err, r1)
  | Auction.unknown => (Result.error Err.unknownAuctionType, r)

/-- The minimum increment or decrement of `generateBidAmount`: the expression
`sdk.MaxInt(sdk.NewInt(1), sdk.NewDecFromInt(amount).Mul(increment).RoundInt())`,
which the source writes out at each of its four uses. -/
def minStep (amount : Int) (increment : Dec) : Int :=
  MaxInt 1 ((NewDecFromInt amount).Mul increment).RoundInt

/-- Modelled from the spec: the invariants of the data model, which the file does
not state: amounts are non-negative, and in a collateral auction the bid does
not exceed `maxBid`. -/
def Auction.Invariant : Auction → Prop
  | Auction.debt a => 0 ≤ a.Lot.Amount ∧ 0 ≤ a.Bid.Amount
  | Auction.surplus a => 0 ≤ a.Lot.Amount ∧ 0 ≤ a.Bid.Amount
  | Auction.collateral a =>
    0 ≤ a.Lot.Amount ∧ 0 ≤ a.Bid.Amount ∧ a.Bid.Amount ≤ a.MaxBid.Amount
  | Auction.unknown => True

instance Auction.decInvariant : (auc : Auction) → Decidable auc.Invariant
  | Auction.debt a => inferInstanceAs (Decidable (0 ≤ a.Lot.Amount ∧ 0 ≤ a.Bid.Amount))
  | Auction.surplus a => inferInstanceAs (Decidable (0 ≤ a.Lot.Amount ∧ 0 ≤ a.Bid.Amount))
  | Auction.collateral a =>
    inferInstanceAs
      (Decidable (0 ≤ a.Lot.Amount ∧ 0 ≤ a.Bid.Amount ∧ a.Bid.Amount ≤ a.MaxBid.Amount))
  | Auction.unknown => inferInstanceAs (Decidable True)

/-- The callback literal that `SimulateMsgPlaceBid` hands to the search, on the
balance snapshot that the keepers return for the account: the two search errors
mean false, any other error is raised, no error means true. -/
def placeBidPredicate {R : Type} (P : RandOps R) (r : R) (params : Params) (auc : Auction)
    (accountAmount : Coins) (blockTime : Int) : Result Bool × R :=
  match generateBidAmount P r params auc accountAmount blockTime with
  | (Result.ok _, r1) => (Result.ok true, r1)
  | (Result.error err, r1) =>
    if err = Err.errorNotEnoughCoins ∨ err = Err.errorCantReceiveBids then (Result.ok false, r1)
    else (Result.panic err, r1)
  | (Result.panic err, r1) => (Result.panic err, r1)

/-! ## findValidAccountAuctionPair -/

/-- The inner loop of `findValidAccountAuctionPair`: the first account of the
list on which the callback returns true for the auction `auc`. The callback
reads and changes a state `s`, as the one of the caller draws from the random
source. -/
def findValidAccount {S A B : Type} (cb : S → A → B → Bool × S) (auc : B) :
    List A → S → Option A × S
  | [], s => (none, s)
  | acc :: rest, s =>
    if (cb s acc auc).1 then (some acc, (cb s acc auc).2)
    else findValidAccount cb auc rest (cb s acc auc).2

/-- The function `findValidAccountAuctionPair`: the outer loop runs over the
auctions, the inner loop over the accounts; `none` stands for the result with
`false` in its third component. -/
def findValidAccountAuctionPair {S A B : Type} (accounts : List A) (auctions : List B)
    (cb : S → A → B → Bool × S) (s : S) : Option (A × B) × S :=
  match auctions with
  | [] => (none, s)
  | auc :: rest =>
    match findValidAccount cb auc accounts s with
    | (some acc, s1) => (some (acc, auc), s1)
    | (none, s1) => findValidAccountAuctionPair accounts rest cb s1

/-- A callback that answers with the predicate `p` and records each of its
invocations in the state. -/
def recordCalls {A B : Type} (p : A → B → Bool) (log : List (A × B)) (acc : A) (auc : B) :
    Bool × List (A × B) :=
  (p acc auc, log ++ [(acc, auc)])

/-! ## Rounding in the rational numbers -/

/-- The value of a decimal as a rational number. -/
def Dec.toRat (d : Dec) : ℚ := (d.i : ℚ) / 1000000000000000000

/-- Rounding to the nearest integer, a tie going away from zero: the rounding in
the words of the spec. -/
def roundHalfAwayFromZero (q : ℚ) : Int :=
  if 0 ≤ q then ⌊q + 1 / 2⌋ else -⌊-q + 1 / 2⌋

/-- Rounding to the nearest integer, a tie going to the even neighbour. -/
def roundHalfEven (q : ℚ) : Int :=
  if q - ⌊q⌋ < 1 / 2 then ⌊q⌋
  else if q - ⌊q⌋ > 1 / 2 then ⌊q⌋ + 1
  else if ⌊q⌋ % 2 = 0 then ⌊q⌋
  else ⌊q⌋ + 1

/-- The minimum step with the rounding spelled out in the rational numbers:
`max(1, r)`, where `r` is the exact product of the amount and the increment
rounded to the nearest integer, a tie going to the even neighbour. -/
def stepTiesToEven (amount : Int) (increment : Dec) : Int :=
  max 1 (roundHalfEven ((amount : ℚ) * increment.toRat))

/-- The minimum step in the words of the spec: `max(1, r)`, where `r` is the
exact product of the amount and the increment rounded to the nearest integer, a
tie going away from zero. -/
def stepTiesAway (amount : Int) (increment : Dec) : Int :=
  max 1 (roundHalfAwayFromZero ((amount : ℚ) * increment.toRat))

/-! ## Basic facts -/

theorem MaxInt_eq_max (i i2 : Int) : MaxInt i i2 = max i i2 := by
  unfold MaxInt
  split <;> omega

theorem MinInt_eq_min (i i2 : Int) : MinInt i i2 = min i i2 := by
  unfold MinInt
  split <;> omega

theorem lcg_bounded : lcg.Bounded := by
  intro r n hn
  have h1 : ¬ n ≤ 0 := by omega
  simp only [lcg, h1, if_false]
  exact ⟨Int.emod_nonneg _ (by omega), Int.emod_lt_of_pos _ hn⟩

/-- A denomination that no coin of the balance carries has amount zero. -/
theorem AmountOf_absent (coins : Coins) (denom : String)
    (h : ∀ c ∈ coins, c.Denom ≠ denom) : coins.AmountOf denom = 0 := by
  unfold Coins.AmountOf
  have hnone : coins.find? (fun c => c.Denom == denom) = none := by
    rw [List.find?_eq_none]
    intro c hc
    simpa using h c hc
  rw [hnone]

theorem RandInt_of_lt {R : Type} (P : RandOps R) (r : R) (a b : Int) (h : a < b) :
    RandInt P r a b = (Result.ok ((P.Rand r (b - a)).1 + a), (P.Rand r (b - a)).2) := by
  have h1 : ¬ a ≥ b := by omega
  simp [RandInt, h1]

theorem RandInt_of_ge {R : Type} (P : RandOps R) (r : R) (a b : Int) (h : b ≤ a) :
    RandInt P r a b = (Result.error Err.minLargerOrEqualToMax, r) := by
  simp [RandInt, h]

theorem RandIntInclusive_of_le {R : Type} (P : RandOps R) (r : R) (a b : Int) (h : a ≤ b) :
    RandIntInclusive P r a b =
      (Result.ok ((P.Rand r (b + 1 - a)).1 + a), (P.Rand r (b + 1 - a)).2) := by
  have h1 : ¬ a > b := by omega
  simp only [RandIntInclusive, h1, if_false]
  exact RandInt_of_lt P r a (b + 1) (by omega)

theorem RandIntInclusive_of_gt {R : Type} (P : RandOps R) (r : R) (a b : Int) (h : b < a) :
    RandIntInclusive P r a b = (Result.error Err.minLargerThanMax, r) := by
  simp [RandIntInclusive, h]

/-- For bounds in order and a bounded source, the inclusive draw returns a value
between them. -/
theorem RandIntInclusive_bounds {R : Type} (P : RandOps R) (hP : P.Bounded) (r : R)
    (a b : Int) (h : a ≤ b) :
    ∃ v r1, RandIntInclusive P r a b = (Result.ok v, r1) ∧ a ≤ v ∧ v ≤ b := by
  have hd := hP r (b + 1 - a) (by omega)
  exact ⟨_, _, RandIntInclusive_of_le P r a b h, by omega, by omega⟩

/-! ## The decimal arithmetic -/

/-- On a non-negative input the chop is a choice between the floor quotient and
its successor, decided by the remainder. -/
theorem chopNonNeg_eq (x : Int) (hx : 0 ≤ x) :
    chopPrecisionAndRoundNonNeg x =
      if x % 1000000000000000000 < 500000000000000000 then x / 1000000000000000000
      else if x % 1000000000000000000 > 500000000000000000 then x / 1000000000000000000 + 1
      else if x / 1000000000000000000 % 2 = 0 then x / 1000000000000000000
      else x / 1000000000000000000 + 1 := by
  unfold chopPrecisionAndRoundNonNeg
  simp only [precisionReuse, fivePrecision]
  rw [Int.tdiv_eq_ediv hx (by norm_num), Int.tmod_eq_emod hx (by norm_num)]
  split_ifs <;> omega

/-- The same description holds for every input, with floor division. -/
theorem chop_eq (x : Int) :
    chopPrecisionAndRound x =
      if x % 1000000000000000000 < 500000000000000000 then x / 1000000000000000000
      else if x % 1000000000000000000 > 500000000000000000 then x / 1000000000000000000 + 1
      else if x / 1000000000000000000 % 2 = 0 then x / 1000000000000000000
      else x / 1000000000000000000 + 1 := by
  unfold chopPrecisionAndRound
  by_cases hx : x < 0
  · rw [if_pos hx, chopNonNeg_eq (-x) (by omega)]
    split_ifs <;> omega
  · rw [if_neg hx, chopNonNeg_eq x (by omega)]

theorem chop_mul_precision (k : Int) :
    chopPrecisionAndRound (k * 1000000000000000000) = k := by
  rw [chop_eq]
  split_ifs <;> omega

/-- The product of an integer-valued decimal with a decimal is exact. -/
theorem Mul_NewDecFromInt (amount : Int) (inc : Dec) :
    ((NewDecFromInt amount).Mul inc).i = amount * inc.i := by
  simp only [Dec.Mul, NewDecFromInt, precisionReuse]
  rw [show amount * 1000000000000000000 * inc.i = (amount * inc.i) * 1000000000000000000 by ring]
  exact chop_mul_precision _

theorem roundHalfEven_div (x : Int) :
    roundHalfEven ((x : ℚ) / 1000000000000000000) =
      if x % 1000000000000000000 < 500000000000000000 then x / 1000000000000000000
      else if x % 1000000000000000000 > 500000000000000000 then x / 1000000000000000000 + 1
      else if x / 1000000000000000000 % 2 = 0 then x / 1000000000000000000
      else x / 1000000000000000000 + 1 := by
  have hfl : ⌊(x : ℚ) / 1000000000000000000⌋ = x / 1000000000000000000 := by
    have := Rat.floor_intCast_div_natCast x 1000000000000000000
    simpa using this
  have hfrac : (x : ℚ) / 1000000000000000000 - ((x / 1000000000000000000 : Int) : ℚ) =
      ((x % 1000000000000000000 : Int) : ℚ) / 1000000000000000000 := by
    have h := Int.emod_add_ediv x 1000000000000000000
    have h2 : (x : ℚ) = ((x % 1000000000000000000 : Int) : ℚ) +
        1000000000000000000 * ((x / 1000000000000000000 : Int) : ℚ) := by
      exact_mod_cast h.symm
    field_simp
    linarith
  unfold roundHalfEven
  rw [hfl, hfrac]
  have e1 : (((x % 1000000000000000000 : Int) : ℚ) / 1000000000000000000 < 1 / 2) ↔
      x % 1000000000000000000 < 500000000000000000 := by
    rw [div_lt_div_iff₀ (by norm_num) (by norm_num)]
    constructor
    · intro h
      have : ((x % 1000000000000000000 : Int) : ℚ) < ((500000000000000000 : Int) : ℚ) := by
        push_cast; linarith
      exact_mod_cast this
    · intro h
      have : ((x % 1000000000000000000 : Int) : ℚ) < ((500000000000000000 : Int) : ℚ) := by
        exact_mod_cast h
      push_cast at this; linarith
  have e2 : (((x % 1000000000000000000 : Int) : ℚ) / 1000000000000000000 > 1 / 2) ↔
      x % 1000000000000000000 > 500000000000000000 := by
    rw [gt_iff_lt, div_lt_div_iff₀ (by norm_num) (by norm_num)]
    constructor
    · intro h
      have : ((500000000000000000 : Int) : ℚ) < ((x % 1000000000000000000 : Int) : ℚ) := by
        push_cast; linarith
      exact_mod_cast this
    · intro h
      have : ((500000000000000000 : Int) : ℚ) < ((x % 1000000000000000000 : Int) : ℚ) := by
        exact_mod_cast h
      push_cast at this; linarith
  simp only [e1, e2]

/-- The rounded product of the source is the exact rational product rounded to
nearest with ties to even. -/
theorem RoundInt_eq_roundHalfEven (amount : Int) (inc : Dec) :
    ((NewDecFromInt amount).Mul inc).RoundInt = roundHalfEven ((amount : ℚ) * inc.toRat) := by
  unfold Dec.RoundInt
  rw [Mul_NewDecFromInt, chop_eq, Dec.toRat, ← mul_div_assoc, ← roundHalfEven_div]
  push_cast
  rfl

/-- The minimum step of the source is the step with ties to even. -/
theorem minStep_eq_stepTiesToEven (amount : Int) (inc : Dec) :
    minStep amount inc = stepTiesToEven amount inc := by
  unfold minStep stepTiesToEven
  rw [MaxInt_eq_max, RoundInt_eq_roundHalfEven]

/-- At the tie `50 * 0.05 = 2.5` the step with ties away from zero is 3. -/
theorem stepTiesAway_tie : stepTiesAway 50 ⟨50000000000000000⟩ = 3 := by
  norm_num [stepTiesAway, roundHalfAwayFromZero, Dec.toRat]

theorem minStep_ge_one (amount : Int) (inc : Dec) : 1 ≤ minStep amount inc := by
  unfold minStep
  rw [MaxInt_eq_max]
  exact le_max_left _ _

/-- For an amount of at least one and an increment between zero and one the
minimum step does not exceed the amount. -/
theorem minStep_le_amount (amount : Int) (inc : Dec) (hamt : 1 ≤ amount) (h0 : 0 ≤ inc.i)
    (h1 : inc.i ≤ precisionReuse) : minStep amount inc ≤ amount := by
  unfold minStep
  rw [MaxInt_eq_max]
  apply max_le hamt
  unfold Dec.RoundInt
  rw [Mul_NewDecFromInt, chop_eq]
  have hx0 : 0 ≤ amount * inc.i := mul_nonneg (by omega) h0
  have hx1 : amount * inc.i ≤ amount * 1000000000000000000 := by
    apply mul_le_mul_of_nonneg_left _ (by omega)
    simpa [precisionReuse] using h1
  generalize amount * inc.i = x at hx0 hx1
  split_ifs <;> omega

/-! ## The cases of generateBidAmount -/

/-- The debt case of `generateBidAmount`, with the inclusive draw resolved. -/
theorem generateBidAmount_debt {R : Type} (P : RandOps R) (r : R) (params : Params)
    (a : DebtAuction) (bal : Coins) (t : Int) :
    generateBidAmount P r params (Auction.debt a) bal t =
      if bal.AmountOf a.Bid.Denom < a.Bid.Amount then (Result.error Err.errorNotEnoughCoins, r)
      else if a.Lot.Amount = 0 then (Result.error Err.errorCantReceiveBids, r)
      else if a.Lot.Amount - minStep a.Lot.Amount params.IncrementDebt < 0 then
        (Result.panic Err.minLargerThanMax, r)
      else
        (Result.ok ⟨a.Lot.Denom,
            (P.Rand r (a.Lot.Amount - minStep a.Lot.Amount params.IncrementDebt + 1 - 0)).1 + 0⟩,
          (P.Rand r (a.Lot.Amount - minStep a.Lot.Amount params.IncrementDebt + 1 - 0)).2) := by
  simp only [generateBidAmount, minStep]
  split_ifs with h1 h2 h3
  · rfl
  · rfl
  · rw [RandIntInclusive_of_gt P r _ _ h3]
  · rw [RandIntInclusive_of_le P r _ _ (by omega)]

/-- The surplus case of `generateBidAmount`, with the inclusive draw resolved. -/
theorem generateBidAmount_surplus {R : Type} (P : RandOps R) (r : R) (params : Params)
    (a : SurplusAuction) (bal : Coins) (t : Int) :
    generateBidAmount P r params (Auction.surplus a) bal t =
      if bal.AmountOf a.Bid.Denom < a.Bid.Amount + minStep a.Bid.Amount params.IncrementSurplus
      then (Result.error Err.errorNotEnoughCoins, r)
      else
        (Result.ok ⟨a.Bid.Denom,
            (P.Rand r (bal.AmountOf a.Bid.Denom + 1 -
              (a.Bid.Amount + minStep a.Bid.Amount params.IncrementSurplus))).1 +
              (a.Bid.Amount + minStep a.Bid.Amount params.IncrementSurplus)⟩,
          (P.Rand r (bal.AmountOf a.Bid.Denom + 1 -
              (a.Bid.Amount + minStep a.Bid.Amount params.IncrementSurplus))).2) := by
  simp only [generateBidAmount, minStep]
  split_ifs with h1
  · rfl
  · rw [RandIntInclusive_of_le P r _ _ (by omega)]

/-- The minimum new bid of the collateral case: the increment capped at
`MaxBid`. -/
theorem collateral_minNewBid_le (a : CollateralAuction) (inc : Dec) :
    MinInt (a.Bid.Amount + minStep a.Bid.Amount inc) a.MaxBid.Amount ≤ a.MaxBid.Amount := by
  rw [MinInt_eq_min]
  exact min_le_right _ _

/-- The reverse-phase collateral case of `generateBidAmount`, with the inclusive
draw resolved. -/
theorem generateBidAmount_collateral_reverse {R : Type} (P : RandOps R) (r : R)
    (params : Params) (a : CollateralAuction) (bal : Coins) (t : Int)
    (hrev : a.Bid.Amount = a.MaxBid.Amount) :
    generateBidAmount P r params (Auction.collateral a) bal t =
      if bal.AmountOf a.Bid.Denom <
          MinInt (a.Bid.Amount + minStep a.Bid.Amount params.IncrementCollateral) a.MaxBid.Amount
      then (Result.error Err.errorNotEnoughCoins, r)
      else if a.Lot.Amount = 0 then (Result.error Err.errorCantReceiveBids, r)
      else if a.Lot.Amount - minStep a.Lot.Amount params.IncrementCollateral < 0 then
        (Result.panic Err.minLargerThanMax, r)
      else
        (Result.ok ⟨a.Lot.Denom,
            (P.Rand r
              (a.Lot.Amount - minStep a.Lot.Amount params.IncrementCollateral + 1 - 0)).1 + 0⟩,
          (P.Rand r
              (a.Lot.Amount - minStep a.Lot.Amount params.IncrementCollateral + 1 - 0)).2) := by
  have hph : a.IsReversePhase = true := by
    simp [CollateralAuction.IsReversePhase, hrev]
  simp only [generateBidAmount, minStep, hph, true_and, if_true]
  split_ifs with h1 h2 h3
  · rfl
  · rfl
  · rw [RandIntInclusive_of_gt P r _ _ h3]
  · rw [RandIntInclusive_of_le P r _ _ (by omega)]

/-- The forward-phase collateral case of `generateBidAmount`, with the inclusive
draw resolved. -/
theorem generateBidAmount_collateral_forward {R : Type} (P : RandOps R) (r : R)
    (params : Params) (a : CollateralAuction) (bal : Coins) (t : Int)
    (hfwd : a.Bid.Amount ≠ a.MaxBid.Amount) :
    generateBidAmount P r params (Auction.collateral a) bal t =
      if bal.AmountOf a.Bid.Denom <
          MinInt (a.Bid.Amount + minStep a.Bid.Amount params.IncrementCollateral) a.MaxBid.Amount
      then (Result.error Err.errorNotEnoughCoins, r)
      else
        let lo :=
          MinInt (a.Bid.Amount + minStep a.Bid.Amount params.IncrementCollateral) a.MaxBid.Amount
        let hi := MinInt (bal.AmountOf a.Bid.Denom) a.MaxBid.Amount
        let drawn := P.Rand r (hi + 1 - lo)
        let flip := P.Intn drawn.2 2
        if flip.1 = 0 ∧ bal.AmountOf a.Bid.Denom ≥ a.MaxBid.Amount then
          (Result.ok ⟨a.Bid.Denom, a.MaxBid.Amount⟩, flip.2)
        else (Result.ok ⟨a.Bid.Denom, drawn.1 + lo⟩, flip.2) := by
  have hph : a.IsReversePhase = false := by
    simp [CollateralAuction.IsReversePhase, hfwd]
  have hcap := collateral_minNewBid_le a params.IncrementCollateral
  simp only [generateBidAmount, hph, Bool.false_eq_true, false_and, if_false]
  simp only [minStep] at hcap ⊢
  by_cases h1 : bal.AmountOf a.Bid.Denom < MinInt (a.Bid.Amount +
      MaxInt 1 ((NewDecFromInt a.Bid.Amount).Mul params.IncrementCollateral).RoundInt)
      a.MaxBid.Amount
  · simp only [h1, if_true]
  · have hle : MinInt (a.Bid.Amount +
        MaxInt 1 ((NewDecFromInt a.Bid.Amount).Mul params.IncrementCollateral).RoundInt)
        a.MaxBid.Amount ≤ MinInt (bal.AmountOf a.Bid.Denom) a.MaxBid.Amount := by
      rw [MinInt_eq_min (bal.AmountOf a.Bid.Denom)]
      exact le_min (by omega) hcap
    simp only [h1, if_false, RandIntInclusive_of_le P r _ _ hle]

/-- The funds check of the collateral case, in either phase. -/
theorem generateBidAmount_collateral_notEnough_iff {R : Type} (P : RandOps R) (r : R)
    (params : Params) (a : CollateralAuction) (bal : Coins) (t : Int) :
    (generateBidAmount P r params (Auction.collateral a) bal t).1 =
        Result.error Err.errorNotEnoughCoins ↔
      bal.AmountOf a.Bid.Denom <
        MinInt (a.Bid.Amount + minStep a.Bid.Amount params.IncrementCollateral)
          a.MaxBid.Amount := by
  by_cases hph : a.Bid.Amount = a.MaxBid.Amount
  · rw [generateBidAmount_collateral_reverse P r params a bal t hph]
    split_ifs with h1 h2 h3
    · exact ⟨fun _ => h1, fun _ => rfl⟩
    · exact ⟨(fun h => by cases h), fun h => absurd h h1⟩
    · exact ⟨(fun h => by cases h), fun h => absurd h h1⟩
    · exact ⟨(fun h => by cases h), fun h => absurd h h1⟩
  · rw [generateBidAmount_collateral_forward P r params a bal t hph]
    by_cases h1 : bal.AmountOf a.Bid.Denom <
        MinInt (a.Bid.Amount + minStep a.Bid.Amount params.IncrementCollateral) a.MaxBid.Amount
    · rw [if_pos h1]
      exact ⟨fun _ => h1, fun _ => rfl⟩
    · rw [if_neg h1]
      refine ⟨fun h => ?_, fun h => absurd h h1⟩
      simp only at h
      split_ifs at h

/-- The closed-auction check of the collateral case, in either phase. -/
theorem generateBidAmount_collateral_cantReceive_iff {R : Type} (P : RandOps R) (r : R)
    (params : Params) (a : CollateralAuction) (bal : Coins) (t : Int) :
    (generateBidAmount P r params (Auction.collateral a) bal t).1 =
        Result.error Err.errorCantReceiveBids ↔
      (bal.AmountOf a.Bid.Denom ≥
        MinInt (a.Bid.Amount + minStep a.Bid.Amount params.IncrementCollateral)
          a.MaxBid.Amount ∧
        a.Bid.Amount = a.MaxBid.Amount ∧ a.Lot.Amount = 0) := by
  by_cases hph : a.Bid.Amount = a.MaxBid.Amount
  · rw [generateBidAmount_collateral_reverse P r params a bal t hph]
    split_ifs with h1 h2 h3
    · exact ⟨(fun h => by cases h), fun h => by omega⟩
    · exact ⟨fun _ => ⟨by omega, hph, h2⟩, fun _ => rfl⟩
    · exact ⟨(fun h => by cases h), fun h => absurd h.2.2 h2⟩
    · exact ⟨(fun h => by cases h), fun h => absurd h.2.2 h2⟩
  · rw [generateBidAmount_collateral_forward P r params a bal t hph]
    refine ⟨fun h => ?_, fun h => absurd h.2.1 hph⟩
    simp only at h
    split_ifs at h
    cases h

/-- In reverse phase the minimum new bid is the cap. -/
theorem collateral_reverse_minNewBid (a : CollateralAuction) (inc : Dec)
    (hrev : a.Bid.Amount = a.MaxBid.Amount) :
    MinInt (a.Bid.Amount + minStep a.Bid.Amount inc) a.MaxBid.Amount = a.MaxBid.Amount := by
  have h1 := minStep_ge_one a.Bid.Amount inc
  rw [MinInt_eq_min]
  omega

/-- The outcome of `generateBidAmount` has a shape fixed by the parameters, the
auction and the balance alone: a bid in one denomination, one returned error, or
one raised error, whatever the random source. -/
theorem generateBidAmount_shape (params : Params) (auc : Auction) (bal : Coins) (t : Int) :
    (∃ d, ∀ (R : Type) (P : RandOps R) (r : R),
        ∃ amt, (generateBidAmount P r params auc bal t).1 = Result.ok ⟨d, amt⟩) ∨
    (∃ e, ∀ (R : Type) (P : RandOps R) (r : R),
        (generateBidAmount P r params auc bal t).1 = Result.error e) ∨
    (∃ e, ∀ (R : Type) (P : RandOps R) (r : R),
        (generateBidAmount P r params auc bal t).1 = Result.panic e) := by
  cases auc with
  | debt a =>
    by_cases h1 : bal.AmountOf a.Bid.Denom < a.Bid.Amount
    · refine Or.inr (Or.inl ⟨Err.errorNotEnoughCoins, fun R P r => ?_⟩)
      rw [generateBidAmount_debt, if_pos h1]
    by_cases h2 : a.Lot.Amount = 0
    · refine Or.inr (Or.inl ⟨Err.errorCantReceiveBids, fun R P r => ?_⟩)
      rw [generateBidAmount_debt, if_neg h1, if_pos h2]
    by_cases h3 : a.Lot.Amount - minStep a.Lot.Amount params.IncrementDebt < 0
    · refine Or.inr (Or.inr ⟨Err.minLargerThanMax, fun R P r => ?_⟩)
      rw [generateBidAmount_debt, if_neg h1, if_neg h2, if_pos h3]
    · refine Or.inl ⟨a.Lot.Denom, fun R P r => ?_⟩
      rw [generateBidAmount_debt, if_neg h1, if_neg h2, if_neg h3]
      exact ⟨_, rfl⟩
  | surplus a =>
    by_cases h1 : bal.AmountOf a.Bid.Denom <
        a.Bid.Amount + minStep a.Bid.Amount params.IncrementSurplus
    · refine Or.inr (Or.inl ⟨Err.errorNotEnoughCoins, fun R P r => ?_⟩)
      rw [generateBidAmount_surplus, if_pos h1]
    · refine Or.inl ⟨a.Bid.Denom, fun R P r => ?_⟩
      rw [generateBidAmount_surplus, if_neg h1]
      exact ⟨_, rfl⟩
  | collateral a =>
    by_cases h1 : bal.AmountOf a.Bid.Denom <
        MinInt (a.Bid.Amount + minStep a.Bid.Amount params.IncrementCollateral) a.MaxBid.Amount
    · refine Or.inr (Or.inl ⟨Err.errorNotEnoughCoins, fun R P r => ?_⟩)
      exact (generateBidAmount_collateral_notEnough_iff P r params a bal t).2 h1
    by_cases hph : a.Bid.Amount = a.MaxBid.Amount
    · by_cases h2 : a.Lot.Amount = 0
      · refine Or.inr (Or.inl ⟨Err.errorCantReceiveBids, fun R P r => ?_⟩)
        rw [generateBidAmount_collateral_reverse P r params a bal t hph, if_neg h1, if_pos h2]
      by_cases h3 : a.Lot.Amount - minStep a.Lot.Amount params.IncrementCollateral < 0
      · refine Or.inr (Or.inr ⟨Err.minLargerThanMax, fun R P r => ?_⟩)
        rw [generateBidAmount_collateral_reverse P r params a bal t hph, if_neg h1, if_neg h2,
          if_pos h3]
      · refine Or.inl ⟨a.Lot.Denom, fun R P r => ?_⟩
        rw [generateBidAmount_collateral_reverse P r params a bal t hph, if_neg h1, if_neg h2,
          if_neg h3]
        exact ⟨_, rfl⟩
    · refine Or.inl ⟨a.Bid.Denom, fun R P r => ?_⟩
      rw [generateBidAmount_collateral_forward P r params a bal t hph, if_neg h1]
      simp only
      split_ifs
      · exact ⟨_, rfl⟩
      · exact ⟨_, rfl⟩
  | unknown =>
    exact Or.inr (Or.inl ⟨Err.unknownAuctionType, fun R P r => rfl⟩)

/-! ## The search -/

/-- With a callback that answers by the predicate `p`, the inner loop finds the
first account satisfying `p` for the auction. -/
theorem findValidAccount_fst {S A B : Type} (p : A → B → Bool) (step : S → A → B → S)
    (auc : B) (accounts : List A) (s : S) :
    (findValidAccount (fun s a b => (p a b, step s a b)) auc accounts s).1 =
      accounts.find? (fun a => p a auc) := by
  induction accounts generalizing s with
  | nil => rfl
  | cons acc rest ih =>
    by_cases h : p acc auc = true
    · simp [findValidAccount, h]
    · simp only [Bool.not_eq_true] at h
      simp [findValidAccount, h, ih]

/-- With a callback that answers by the predicate `p`, the search returns the
first auction that has a satisfying account, with its first such account. -/
theorem findValidAccountAuctionPair_fst {S A B : Type} (p : A → B → Bool)
    (step : S → A → B → S) (accounts : List A) (auctions : List B) (s : S) :
    (findValidAccountAuctionPair accounts auctions (fun s a b => (p a b, step s a b)) s).1 =
      auctions.findSome? (fun auc =>
        (accounts.find? (fun a => p a auc)).map (fun acc => (acc, auc))) := by
  induction auctions generalizing s with
  | nil => rfl
  | cons auc rest ih =>
    have hin := findValidAccount_fst p step auc accounts s
    unfold findValidAccountAuctionPair
    rcases hres : findValidAccount (fun s a b => (p a b, step s a b)) auc accounts s with
      ⟨_ | acc, s1⟩
    · rw [hres] at hin
      simp only at hin
      simp only [List.findSome?_cons, ← hin, Option.map_none']
      exact ih s1
    · rw [hres] at hin
      simp only at hin
      simp only [List.findSome?_cons, ← hin, Option.map_some']

theorem find?_first {A : Type} (q : A → Bool) (accounts : List A) (acc : A)
    (h : accounts.find? q = some acc) :
    q acc = true ∧ ∃ j : Nat, accounts[j]? = some acc ∧
      ∀ (j2 : Nat) (acc2 : A), accounts[j2]? = some acc2 → q acc2 = true → j ≤ j2 := by
  induction accounts with
  | nil => cases h
  | cons x rest ih =>
    by_cases hx : q x = true
    · rw [List.find?_cons_of_pos _ hx] at h
      cases h
      exact ⟨hx, 0, List.getElem?_cons_zero, fun _ _ _ _ => Nat.zero_le _⟩
    · rw [List.find?_cons_of_neg _ hx] at h
      obtain ⟨hq, j, hj, hmin⟩ := ih h
      refine ⟨hq, j + 1, by simpa using hj, ?_⟩
      intro j2 acc2 h2 hq2
      cases j2 with
      | zero =>
        simp only [List.getElem?_cons_zero, Option.some.injEq] at h2
        subst h2
        exact absurd hq2 hx
      | succ k =>
        simp only [List.getElem?_cons_succ] at h2
        have := hmin k acc2 h2 hq2
        omega

theorem findSome?_pair_first {A B : Type} (p : A → B → Bool) (accounts : List A)
    (auctions : List B) (acc : A) (auc : B)
    (h : auctions.findSome? (fun auc =>
        (accounts.find? (fun a => p a auc)).map (fun acc => (acc, auc))) = some (acc, auc)) :
    p acc auc = true ∧ ∃ i j : Nat, auctions[i]? = some auc ∧ accounts[j]? = some acc ∧
      ∀ (i2 j2 : Nat) (auc2 : B) (acc2 : A), auctions[i2]? = some auc2 → accounts[j2]? = some acc2 →
        p acc2 auc2 = true → i < i2 ∨ (i = i2 ∧ j ≤ j2) := by
  induction auctions with
  | nil => cases h
  | cons x rest ih =>
    rw [List.findSome?_cons] at h
    rcases hin : accounts.find? (fun a => p a x) with _ | acc0
    · rw [hin] at h
      simp only [Option.map_none'] at h
      obtain ⟨hp, i, j, hi, hj, hmin⟩ := ih h
      refine ⟨hp, i + 1, j, by simpa using hi, hj, ?_⟩
      intro i2 j2 auc2 acc2 h2 h3 hp2
      cases i2 with
      | zero =>
        simp only [List.getElem?_cons_zero, Option.some.injEq] at h2
        subst h2
        rw [List.find?_eq_none] at hin
        have hmem : acc2 ∈ accounts := List.getElem?_mem h3
        exact absurd hp2 (hin acc2 hmem)
      | succ k =>
        simp only [List.getElem?_cons_succ] at h2
        have := hmin k j2 auc2 acc2 h2 h3 hp2
        omega
    · rw [hin] at h
      simp only [Option.map_some', Option.some.injEq, Prod.mk.injEq] at h
      obtain ⟨rfl, rfl⟩ := h
      obtain ⟨hq, j, hj, hmin⟩ := find?_first (fun a => p a x) accounts acc0 hin
      refine ⟨hq, 0, j, List.getElem?_cons_zero, hj, ?_⟩
      intro i2 j2 auc2 acc2 h2 h3 hp2
      cases i2 with
      | zero =>
        simp only [List.getElem?_cons_zero, Option.some.injEq] at h2
        subst h2
        exact Or.inr ⟨rfl, hmin j2 acc2 h3 hp2⟩
      | succ k => exact Or.inl (Nat.succ_pos k)

theorem findSome?_pair_eq_none {A B : Type} (p : A → B → Bool) (accounts : List A)
    (auctions : List B) :
    auctions.findSome? (fun auc =>
        (accounts.find? (fun a => p a auc)).map (fun acc => (acc, auc))) = none ↔
      ∀ acc ∈ accounts, ∀ auc ∈ auctions, p acc auc = false := by
  rw [List.findSome?_eq_none_iff]
  constructor
  · intro h acc hacc auc hauc
    have := h auc hauc
    simp only [Option.map_eq_none', List.find?_eq_none] at this
    simpa using this acc hacc
  · intro h auc hauc
    simp only [Option.map_eq_none', List.find?_eq_none]
    intro acc hacc
    simpa using h acc hacc auc hauc

/-- The inner loop under the recording callback only appends to the log. -/
theorem findValidAccount_recordCalls_log {A B : Type} (p : A → B → Bool) (auc : B)
    (accounts : List A) (log : List (A × B)) :
    ∃ l, (findValidAccount (recordCalls p) auc accounts log).2 = log ++ l := by
  induction accounts generalizing log with
  | nil => exact ⟨[], by simp [findValidAccount]⟩
  | cons acc rest ih =>
    unfold findValidAccount
    split_ifs with h
    · exact ⟨[(acc, auc)], rfl⟩
    · obtain ⟨l, hl⟩ := ih (recordCalls p log acc auc).2
      refine ⟨(acc, auc) :: l, ?_⟩
      rw [hl]
      simp [recordCalls]

/-- The search under the recording callback only appends to the log. -/
theorem findValidAccountAuctionPair_recordCalls_log {A B : Type} (p : A → B → Bool)
    (accounts : List A) (auctions : List B) (log : List (A × B)) :
    ∃ l, (findValidAccountAuctionPair accounts auctions (recordCalls p) log).2 = log ++ l := by
  induction auctions generalizing log with
  | nil => exact ⟨[], by simp [findValidAccountAuctionPair]⟩
  | cons auc rest ih =>
    obtain ⟨l1, h1⟩ := findValidAccount_recordCalls_log p auc accounts log
    unfold findValidAccountAuctionPair
    rcases hres : findValidAccount (recordCalls p) auc accounts log with ⟨_ | acc, s1⟩
    · rw [hres] at h1
      simp only at h1
      obtain ⟨l2, h2⟩ := ih s1
      refine ⟨l1 ++ l2, ?_⟩
      simp only
      rw [h2, h1, List.append_assoc]
    · rw [hres] at h1
      exact ⟨l1, h1⟩

/-- With an account and an auction in the lists, the recording callback is
invoked: the log begins with the first pair. -/
theorem findValidAccountAuctionPair_recordCalls_nonempty {A B : Type} (p : A → B → Bool)
    (acc : A) (accounts : List A) (auc : B) (auctions : List B) :
    ∃ l, (findValidAccountAuctionPair (acc :: accounts) (auc :: auctions)
      (recordCalls p) []).2 = (acc, auc) :: l := by
  unfold findValidAccountAuctionPair
  have hinner : ∃ l, (findValidAccount (recordCalls p) auc (acc :: accounts) []).2 =
      (acc, auc) :: l := by
    unfold findValidAccount
    split_ifs with h
    · exact ⟨[], rfl⟩
    · obtain ⟨l, hl⟩ := findValidAccount_recordCalls_log p auc accounts
        (recordCalls p [] acc auc).2
      exact ⟨l, by rw [hl]; simp [recordCalls]⟩
  obtain ⟨l1, h1⟩ := hinner
  rcases hres : findValidAccount (recordCalls p) auc (acc :: accounts) [] with ⟨_ | a0, s1⟩
  · rw [hres] at h1
    simp only at h1
    obtain ⟨l2, h2⟩ := findValidAccountAuctionPair_recordCalls_log p (acc :: accounts)
      auctions s1
    refine ⟨l1 ++ l2, ?_⟩
    simp only
    rw [h2, h1]
    rfl
  · rw [hres] at h1
    exact ⟨l1, h1⟩

/-- With no account the search invokes no callback and leaves the state as it
was. -/
theorem findValidAccountAuctionPair_nil_accounts {S A B : Type} (cb : S → A → B → Bool × S)
    (auctions : List B) (s : S) :
    findValidAccountAuctionPair ([] : List A) auctions cb s = (none, s) := by
  induction auctions with
  | nil => rfl
  | cons auc rest ih =>
    unfold findValidAccountAuctionPair
    simp only [findValidAccount]
    exact ih

/-! ## RandInt and RandIntInclusive: the claims -/

/-- Claim C1. For bounds `inclusiveMin < exclusiveMax` of any sign and any state
of the random source, `RandInt` succeeds and its result lies in
`[inclusiveMin, exclusiveMax)`, given only that the bounded draw at the width
`exclusiveMax - inclusiveMin` lands in `[0, width)`. -/
theorem RandInt_in_range {R : Type} (P : RandOps R) (r : R) (inclusiveMin exclusiveMax : Int)
    (hlt : inclusiveMin < exclusiveMax)
    (hdraw : 0 ≤ (P.Rand r (exclusiveMax - inclusiveMin)).1 ∧
      (P.Rand r (exclusiveMax - inclusiveMin)).1 < exclusiveMax - inclusiveMin) :
    ∃ v, (RandInt P r inclusiveMin exclusiveMax).1 = Result.ok v ∧
      inclusiveMin ≤ v ∧ v < exclusiveMax := by
  rw [RandInt_of_lt P r inclusiveMin exclusiveMax hlt]
  exact ⟨_, rfl, by omega, by omega⟩

theorem RandInt_in_range_witness :
    ∃ v, (RandInt lcg 7 (-5) 3).1 = Result.ok v ∧ (-5 : Int) ≤ v ∧ v < 3 :=
  RandInt_in_range lcg 7 (-5) 3 (by decide) (by decide)

/-- Claim C2. `RandInt` fails, with its invalid-range error, exactly when
`inclusiveMin >= exclusiveMax`: it fails on equal bounds, and on bounds in
strict order it returns a value, whatever the random source. -/
theorem RandInt_fails_iff {R : Type} (P : RandOps R) (r : R) (inclusiveMin exclusiveMax : Int) :
    ((RandInt P r inclusiveMin exclusiveMax).1 = Result.error Err.minLargerOrEqualToMax ↔
        inclusiveMin ≥ exclusiveMax) ∧
    ((∀ v, (RandInt P r inclusiveMin exclusiveMax).1 ≠ Result.ok v) ↔
        inclusiveMin ≥ exclusiveMax) ∧
    (RandInt P r inclusiveMin inclusiveMin).1 = Result.error Err.minLargerOrEqualToMax ∧
    (inclusiveMin < exclusiveMax →
        ∃ v, (RandInt P r inclusiveMin exclusiveMax).1 = Result.ok v) := by
  refine ⟨?_, ?_, ?_, ?_⟩
  · by_cases h : inclusiveMin < exclusiveMax
    · rw [RandInt_of_lt P r _ _ h]
      constructor
      · intro h1; cases h1
      · intro h1; omega
    · rw [RandInt_of_ge P r _ _ (by omega)]
      exact ⟨fun _ => by omega, fun _ => rfl⟩
  · by_cases h : inclusiveMin < exclusiveMax
    · rw [RandInt_of_lt P r _ _ h]
      constructor
      · intro h1; exact absurd rfl (h1 _)
      · intro h1; omega
    · rw [RandInt_of_ge P r _ _ (by omega)]
      refine ⟨fun _ => by omega, fun _ v hv => ?_⟩
      cases hv
  · rw [RandInt_of_ge P r _ _ (le_refl _)]
  · intro h
    rw [RandInt_of_lt P r _ _ h]
    exact ⟨_, rfl⟩

/-- Claim C3. `RandIntInclusive` fails, with its invalid-range error, exactly
when `min > max`; for `min <= max` it returns what `RandInt r min (max+1)`
returns, a value `v` with `min <= v <= max`, and for `min = max` it returns
`min`. -/
theorem RandIntInclusive_spec {R : Type} (P : RandOps R) (hP : P.Bounded) (r : R)
    (min max : Int) :
    ((RandIntInclusive P r min max).1 = Result.error Err.minLargerThanMax ↔ min > max) ∧
    ((∀ v, (RandIntInclusive P r min max).1 ≠ Result.ok v) ↔ min > max) ∧
    (min ≤ max → RandIntInclusive P r min max = RandInt P r min (max + 1)) ∧
    (min ≤ max → ∃ v, (RandIntInclusive P r min max).1 = Result.ok v ∧ min ≤ v ∧ v ≤ max) ∧
    (RandIntInclusive P r min min).1 = Result.ok min := by
  refine ⟨?_, ?_, ?_, ?_, ?_⟩
  · by_cases h : min ≤ max
    · rw [RandIntInclusive_of_le P r _ _ h]
      constructor
      · intro h1; cases h1
      · intro h1; omega
    · rw [RandIntInclusive_of_gt P r _ _ (by omega)]
      exact ⟨fun _ => by omega, fun _ => rfl⟩
  · by_cases h : min ≤ max
    · rw [RandIntInclusive_of_le P r _ _ h]
      constructor
      · intro h1; exact absurd rfl (h1 _)
      · intro h1; omega
    · rw [RandIntInclusive_of_gt P r _ _ (by omega)]
      refine ⟨fun _ => by omega, fun _ v hv => ?_⟩
      cases hv
  · intro h
    rw [RandIntInclusive_of_le P r _ _ h, RandInt_of_lt P r _ _ (by omega)]
  · intro h
    obtain ⟨v, r1, hv, h1, h2⟩ := RandIntInclusive_bounds P hP r min max h
    exact ⟨v, by rw [hv], h1, h2⟩
  · obtain ⟨v, r1, hv, h1, h2⟩ := RandIntInclusive_bounds P hP r min min (le_refl _)
    rw [hv]
    have : v = min := by omega
    rw [this]

theorem RandIntInclusive_spec_witness :
    (RandIntInclusive lcg 3 2 9 = RandInt lcg 3 2 10) ∧
    (RandIntInclusive lcg 3 4 4).1 = Result.ok 4 :=
  ⟨(RandIntInclusive_spec lcg lcg_bounded 3 2 9).2.2.1 (by decide),
   (RandIntInclusive_spec lcg lcg_bounded 3 4 4).2.2.2.2⟩

/-! ## generateBidAmount: the claims -/

/-- Claim C4, as the claim states it with the rounding of the spec (ties away
from zero), fails: at a lot of 50 uguu and an increment of 0.05 the product is
the tie 2.5, the bound of the claim is `50 - 3 = 47`, and `generateBidAmount`
returns 48. -/
theorem debt_bid_above_bound_of_ties_away :
    stepTiesAway 50 ⟨50000000000000000⟩ = 3 ∧
    (generateBidAmount lcg 48 ⟨⟨0⟩, ⟨50000000000000000⟩, ⟨0⟩⟩
        (Auction.debt ⟨⟨"debt", 100⟩, ⟨"uguu", 50⟩⟩) [⟨"debt", 100⟩] 0).1 =
      Result.ok ⟨"uguu", 48⟩ ∧
    ¬ ((48 : Int) ≤ 50 - stepTiesAway 50 ⟨50000000000000000⟩) := by
  refine ⟨stepTiesAway_tie, by decide, ?_⟩
  rw [stepTiesAway_tie]
  decide

/-- Claim C4, amended. Whenever `generateBidAmount` returns a bid on a debt
auction, the bid is denominated in `Lot.Denom` and its amount lies between zero
and `Lot.Amount - max(1, round(Lot.Amount * IncrementDebt))`, where `round` takes
the exact product to the nearest integer, a tie going to the even neighbour. At a
lot of 1000 uguu, an increment of 0.01, a bid of 100 debt and a balance of 100
debt the decrement is 10 and a bid in uguu with an amount in `[0, 990]` is
returned. -/
theorem generateBidAmount_debt_range {R : Type} (P : RandOps R) (hP : P.Bounded) (r : R)
    (params : Params) (a : DebtAuction) (bal : Coins) (t : Int) :
    (∀ c, (generateBidAmount P r params (Auction.debt a) bal t).1 = Result.ok c →
      c.Denom = a.Lot.Denom ∧ 0 ≤ c.Amount ∧
        c.Amount ≤ a.Lot.Amount - stepTiesToEven a.Lot.Amount params.IncrementDebt) ∧
    (a = ⟨⟨"debt", 100⟩, ⟨"uguu", 1000⟩⟩ → params.IncrementDebt = ⟨10000000000000000⟩ →
      bal = [⟨"debt", 100⟩] →
      stepTiesToEven a.Lot.Amount params.IncrementDebt = 10 ∧
      ∃ amt, (generateBidAmount P r params (Auction.debt a) bal t).1 = Result.ok ⟨"uguu", amt⟩ ∧
        0 ≤ amt ∧ amt ≤ 990) := by
  rw [← minStep_eq_stepTiesToEven, generateBidAmount_debt]
  constructor
  · intro c hc
    split_ifs at hc with h1 h2 h3
    have hd := hP r (a.Lot.Amount - minStep a.Lot.Amount params.IncrementDebt + 1 - 0)
      (by omega)
    simp only [Result.ok.injEq] at hc
    subst hc
    exact ⟨rfl, by simp only; omega, by simp only; omega⟩
  · rintro rfl hinc rfl
    rw [hinc]
    have hstep : minStep 1000 ⟨10000000000000000⟩ = 10 := by decide
    have hbal : Coins.AmountOf [⟨"debt", 100⟩] "debt" = 100 := by decide
    simp only [hstep, hbal]
    have hd := hP r (1000 - 10 + 1 - 0) (by norm_num)
    refine ⟨trivial, (P.Rand r (1000 - 10 + 1 - 0)).1 + 0, ?_, by omega, by omega⟩
    simp

theorem generateBidAmount_debt_range_witness :
    (generateBidAmount lcg 12345 ⟨⟨0⟩, ⟨10000000000000000⟩, ⟨0⟩⟩
        (Auction.debt ⟨⟨"debt", 100⟩, ⟨"uguu", 1000⟩⟩) [⟨"debt", 100⟩] 0).1 =
      Result.ok ⟨"uguu", 453⟩ ∧
    (0 : Int) ≤ 453 ∧ (453 : Int) ≤ 1000 - stepTiesToEven 1000 ⟨10000000000000000⟩ :=
  ⟨by decide,
   ((generateBidAmount_debt_range lcg lcg_bounded 12345 ⟨⟨0⟩, ⟨10000000000000000⟩, ⟨0⟩⟩
      ⟨⟨"debt", 100⟩, ⟨"uguu", 1000⟩⟩ [⟨"debt", 100⟩] 0).1 ⟨"uguu", 453⟩ (by decide)).2⟩

/-- Claim C5, at a failing input. At a lot of 1000 uguu and an increment of 2 (two
hundred per cent, a non-negative decimal) the zero-lot check passes, the decrement
is 2000 and `maxNewLot` is `-1000`, against the comment of the source that it is
not negative after that check; the inclusive draw fails and `generateBidAmount`
raises its error, in the debt case and in the reverse-phase collateral case. -/
theorem maxNewLot_negative_at_increment_two :
    (1000 : Int) - minStep 1000 ⟨2000000000000000000⟩ = -1000 ∧
    (RandIntInclusive lcg 0 0 (1000 - minStep 1000 ⟨2000000000000000000⟩)).1 =
      Result.error Err.minLargerThanMax ∧
    (generateBidAmount lcg 0 ⟨⟨0⟩, ⟨2000000000000000000⟩, ⟨0⟩⟩
        (Auction.debt ⟨⟨"debt", 100⟩, ⟨"uguu", 1000⟩⟩) [⟨"debt", 100⟩] 0).1 =
      Result.panic Err.minLargerThanMax ∧
    (generateBidAmount lcg 0 ⟨⟨0⟩, ⟨0⟩, ⟨2000000000000000000⟩⟩
        (Auction.collateral ⟨⟨"usdx", 100⟩, ⟨"uguu", 1000⟩, ⟨"usdx", 100⟩⟩)
        [⟨"usdx", 100⟩] 0).1 =
      Result.panic Err.minLargerThanMax := by
  decide

/-- For a lot amount of at least one and an increment between zero and one,
`maxNewLot = lot - max(1, round(lot * increment))` is non-negative, the inclusive
draw over `[0, maxNewLot]` returns a value, and neither the debt case (with
`IncrementDebt`) nor the reverse-phase collateral case (with
`IncrementCollateral`) of `generateBidAmount` raises an error. -/
theorem maxNewLot_nonneg_of_increment_le_one (lot : Int) (inc : Dec) (hlot : 1 ≤ lot)
    (h0 : 0 ≤ inc.i) (h1 : inc.i ≤ precisionReuse) :
    0 ≤ lot - minStep lot inc ∧
    (∀ (R : Type) (P : RandOps R) (r : R),
      ∃ v r1, RandIntInclusive P r 0 (lot - minStep lot inc) = (Result.ok v, r1)) ∧
    (∀ (R : Type) (P : RandOps R) (r : R) (params : Params) (a : DebtAuction) (bal : Coins)
      (t : Int), a.Lot.Amount = lot → params.IncrementDebt = inc →
      ∀ e, (generateBidAmount P r params (Auction.debt a) bal t).1 ≠ Result.panic e) ∧
    (∀ (R : Type) (P : RandOps R) (r : R) (params : Params) (a : CollateralAuction)
      (bal : Coins) (t : Int), a.Bid.Amount = a.MaxBid.Amount → a.Lot.Amount = lot →
      params.IncrementCollateral = inc →
      ∀ e, (generateBidAmount P r params (Auction.collateral a) bal t).1 ≠ Result.panic e) := by
  have hstep := minStep_le_amount lot inc hlot h0 h1
  refine ⟨by omega, ?_, ?_, ?_⟩
  · intro R P r
    exact ⟨_, _, RandIntInclusive_of_le P r 0 _ (by omega)⟩
  · intro R P r params a bal t hl hi e
    rw [generateBidAmount_debt, hl, hi]
    split_ifs with c1 c2 c3
    · intro h; cases h
    · intro h; cases h
    · omega
    · intro h; cases h
  · intro R P r params a bal t hrev hl hi e
    rw [generateBidAmount_collateral_reverse P r params a bal t hrev, hl, hi]
    split_ifs with c1 c2 c3
    · intro h; cases h
    · intro h; cases h
    · omega
    · intro h; cases h

/-- Claim C6, as the claim states it with the rounding of the spec (ties away
from zero), fails: on a surplus auction with a bid of 50 gov and an increment of
0.05 the minimum new bid of the claim is `50 + 3 = 53`, the balance of 1000 gov
reaches it, and `generateBidAmount` returns 52. -/
theorem surplus_bid_below_minimum_of_ties_away :
    stepTiesAway 50 ⟨50000000000000000⟩ = 3 ∧
    Coins.AmountOf [⟨"gov", 1000⟩] "gov" ≥ 50 + stepTiesAway 50 ⟨50000000000000000⟩ ∧
    (generateBidAmount lcg 949 ⟨⟨50000000000000000⟩, ⟨0⟩, ⟨0⟩⟩
        (Auction.surplus ⟨⟨"gov", 50⟩, ⟨"usdx", 10⟩⟩) [⟨"gov", 1000⟩] 0).1 =
      Result.ok ⟨"gov", 52⟩ ∧
    ¬ ((50 : Int) + stepTiesAway 50 ⟨50000000000000000⟩ ≤ 52) := by
  refine ⟨stepTiesAway_tie, ?_, by decide, ?_⟩
  · rw [stepTiesAway_tie]
    decide
  · rw [stepTiesAway_tie]
    decide

/-- Claim C6, amended. On a surplus auction with a non-negative bid amount and a
non-negative increment, a bidder whose balance in the bid denomination reaches
`minNewBid = Bid.Amount + max(1, round(Bid.Amount * IncrementSurplus))`, where
`round` takes the exact product to the nearest integer, a tie going to the even
neighbour, gets a bid: it is denominated in `Bid.Denom` and its amount lies in
`[minNewBid, balance]`, above the standing bid. The two sign hypotheses are
those of the claim; the proof does not need them. -/
theorem generateBidAmount_surplus_range {R : Type} (P : RandOps R) (hP : P.Bounded) (r : R)
    (params : Params) (a : SurplusAuction) (bal : Coins) (t : Int)
    (_hbid : 0 ≤ a.Bid.Amount) (_hinc : 0 ≤ params.IncrementSurplus.i)
    (hbal : bal.AmountOf a.Bid.Denom ≥
      a.Bid.Amount + stepTiesToEven a.Bid.Amount params.IncrementSurplus) :
    ∃ c r1, generateBidAmount P r params (Auction.surplus a) bal t = (Result.ok c, r1) ∧
      c.Denom = a.Bid.Denom ∧
      a.Bid.Amount + stepTiesToEven a.Bid.Amount params.IncrementSurplus ≤ c.Amount ∧
      c.Amount ≤ bal.AmountOf a.Bid.Denom ∧
      c.Amount > a.Bid.Amount := by
  rw [← minStep_eq_stepTiesToEven] at hbal ⊢
  rw [generateBidAmount_surplus, if_neg (by omega)]
  have hd := hP r (bal.AmountOf a.Bid.Denom + 1 -
    (a.Bid.Amount + minStep a.Bid.Amount params.IncrementSurplus)) (by omega)
  have h1 := minStep_ge_one a.Bid.Amount params.IncrementSurplus
  exact ⟨_, _, rfl, rfl, by simp only; omega, by simp only; omega, by simp only; omega⟩

theorem generateBidAmount_surplus_range_witness :
    ∃ c r1, generateBidAmount lcg 777 ⟨⟨50000000000000000⟩, ⟨0⟩, ⟨0⟩⟩
        (Auction.surplus ⟨⟨"gov", 50⟩, ⟨"usdx", 10⟩⟩) [⟨"gov", 1000⟩] 0 = (Result.ok c, r1) ∧
      c.Denom = "gov" ∧
      50 + stepTiesToEven 50 ⟨50000000000000000⟩ ≤ c.Amount ∧
      c.Amount ≤ Coins.AmountOf [⟨"gov", 1000⟩] "gov" ∧
      c.Amount > 50 :=
  generateBidAmount_surplus_range lcg lcg_bounded 777 ⟨⟨50000000000000000⟩, ⟨0⟩, ⟨0⟩⟩
    ⟨⟨"gov", 50⟩, ⟨"usdx", 10⟩⟩ [⟨"gov", 1000⟩] 0 (by decide) (by decide)
    (by rw [← minStep_eq_stepTiesToEven]; decide)

/-- Claim C7, as the claim states it with the rounding of the spec (ties away
from zero), fails: on a forward-phase collateral auction with a bid of 50, a cap
of 100 and an increment of 0.05 the minimum new bid of the claim is
`min(50 + 3, 100) = 53`, the balance of 60 usdx reaches it, and
`generateBidAmount` returns 52. -/
theorem collateral_forward_bid_below_minimum_of_ties_away :
    MinInt (50 + stepTiesAway 50 ⟨50000000000000000⟩) 100 = 53 ∧
    Coins.AmountOf [⟨"usdx", 60⟩] "usdx" ≥
      MinInt (50 + stepTiesAway 50 ⟨50000000000000000⟩) 100 ∧
    (generateBidAmount lcg 0 ⟨⟨0⟩, ⟨0⟩, ⟨50000000000000000⟩⟩
        (Auction.collateral ⟨⟨"usdx", 50⟩, ⟨"uguu", 1000⟩, ⟨"usdx", 100⟩⟩)
        [⟨"usdx", 60⟩] 0).1 = Result.ok ⟨"usdx", 52⟩ ∧
    ¬ (MinInt (50 + stepTiesAway 50 ⟨50000000000000000⟩) 100 ≤ 52) := by
  rw [stepTiesAway_tie]
  decide

/-- Claim C7, amended. On a collateral auction in forward phase, a bidder whose
balance in the bid denomination reaches
`minNewBid = min(Bid.Amount + max(1, round(Bid.Amount * IncrementCollateral)), MaxBid.Amount)`,
where `round` takes the exact product to the nearest integer, a tie going to the
even neighbour, gets a bid, whatever the coin flip of the override: it is
denominated in `Bid.Denom` and its amount lies in
`[minNewBid, min(balance, MaxBid.Amount)]`, so it exceeds neither `MaxBid.Amount`
nor the balance. At a bid of 80, a cap of 100, a balance of 100 usdx and an
increment of 0.1, `minNewBid` is 88 and the amount lies in `[88, 100]`. -/
theorem generateBidAmount_collateral_forward_range {R : Type} (P : RandOps R)
    (hP : P.Bounded) (r : R) (params : Params) (a : CollateralAuction) (bal : Coins) (t : Int)
    (hfwd : a.Bid.Amount ≠ a.MaxBid.Amount)
    (hbal : bal.AmountOf a.Bid.Denom ≥
      MinInt (a.Bid.Amount + stepTiesToEven a.Bid.Amount params.IncrementCollateral)
        a.MaxBid.Amount) :
    (∃ c r1, generateBidAmount P r params (Auction.collateral a) bal t = (Result.ok c, r1) ∧
      c.Denom = a.Bid.Denom ∧
      MinInt (a.Bid.Amount + stepTiesToEven a.Bid.Amount params.IncrementCollateral)
        a.MaxBid.Amount ≤ c.Amount ∧
      c.Amount ≤ MinInt (bal.AmountOf a.Bid.Denom) a.MaxBid.Amount ∧
      c.Amount ≤ a.MaxBid.Amount ∧ c.Amount ≤ bal.AmountOf a.Bid.Denom) ∧
    (a.Bid = ⟨"usdx", 80⟩ → a.MaxBid = ⟨"usdx", 100⟩ → bal = [⟨"usdx", 100⟩] →
      params.IncrementCollateral = ⟨100000000000000000⟩ →
      MinInt (a.Bid.Amount + stepTiesToEven a.Bid.Amount params.IncrementCollateral)
        a.MaxBid.Amount = 88 ∧
      ∃ amt, (generateBidAmount P r params (Auction.collateral a) bal t).1 =
        Result.ok ⟨"usdx", amt⟩ ∧ 88 ≤ amt ∧ amt ≤ 100) := by
  rw [← minStep_eq_stepTiesToEven] at hbal ⊢
  have hcap := collateral_minNewBid_le a params.IncrementCollateral
  have hmain : ∃ c r1,
      generateBidAmount P r params (Auction.collateral a) bal t = (Result.ok c, r1) ∧
      c.Denom = a.Bid.Denom ∧
      MinInt (a.Bid.Amount + minStep a.Bid.Amount params.IncrementCollateral) a.MaxBid.Amount
        ≤ c.Amount ∧
      c.Amount ≤ MinInt (bal.AmountOf a.Bid.Denom) a.MaxBid.Amount ∧
      c.Amount ≤ a.MaxBid.Amount ∧ c.Amount ≤ bal.AmountOf a.Bid.Denom := by
    rw [generateBidAmount_collateral_forward P r params a bal t hfwd, if_neg (by omega)]
    have hhi : MinInt (bal.AmountOf a.Bid.Denom) a.MaxBid.Amount =
        min (bal.AmountOf a.Bid.Denom) a.MaxBid.Amount := MinInt_eq_min _ _
    have hd := hP r (MinInt (bal.AmountOf a.Bid.Denom) a.MaxBid.Amount + 1 -
      MinInt (a.Bid.Amount + minStep a.Bid.Amount params.IncrementCollateral) a.MaxBid.Amount)
      (by omega)
    simp only
    split_ifs with hflip
    · exact ⟨_, _, rfl, rfl, by simp only; omega, by simp only; omega,
        by simp only; omega, by simp only; omega⟩
    · exact ⟨_, _, rfl, rfl, by simp only; omega, by simp only; omega,
        by simp only; omega, by simp only; omega⟩
  refine ⟨hmain, ?_⟩
  intro hb hm hbl hinc
  obtain ⟨c, r1, hc, hden, hlo, hhi, -, -⟩ := hmain
  have hmin : MinInt ((80 : Int) + minStep 80 ⟨100000000000000000⟩) 100 = 88 := by decide
  have hmax : MinInt (Coins.AmountOf [⟨"usdx", 100⟩] "usdx") 100 = 100 := by decide
  simp only [hb, hm, hbl, hinc, hmin, hmax] at hlo hhi hden ⊢
  refine ⟨trivial, c.Amount, ?_, hlo, hhi⟩
  rw [← hbl, hc]
  simp only
  rw [← hden]

theorem generateBidAmount_collateral_forward_range_witness :
    ∃ amt, (generateBidAmount lcg 12346 ⟨⟨0⟩, ⟨0⟩, ⟨100000000000000000⟩⟩
        (Auction.collateral ⟨⟨"usdx", 80⟩, ⟨"uguu", 1000⟩, ⟨"usdx", 100⟩⟩)
        [⟨"usdx", 100⟩] 0).1 = Result.ok ⟨"usdx", amt⟩ ∧ 88 ≤ amt ∧ amt ≤ 100 :=
  ((generateBidAmount_collateral_forward_range lcg lcg_bounded 12346
      ⟨⟨0⟩, ⟨0⟩, ⟨100000000000000000⟩⟩ ⟨⟨"usdx", 80⟩, ⟨"uguu", 1000⟩, ⟨"usdx", 100⟩⟩
      [⟨"usdx", 100⟩] 0 (by decide)
      (by rw [← minStep_eq_stepTiesToEven]; decide)).2 rfl rfl rfl rfl).2

/-- Claim C8, as the claim states it with the rounding of the spec (ties away
from zero), fails: on a reverse-phase collateral auction with a lot of 50 uguu
and an increment of 0.05 the bound of the claim is `50 - 3 = 47`, and
`generateBidAmount` returns 48. -/
theorem collateral_reverse_bid_above_bound_of_ties_away :
    stepTiesAway 50 ⟨50000000000000000⟩ = 3 ∧
    (generateBidAmount lcg 48 ⟨⟨0⟩, ⟨0⟩, ⟨50000000000000000⟩⟩
        (Auction.collateral ⟨⟨"usdx", 100⟩, ⟨"uguu", 50⟩, ⟨"usdx", 100⟩⟩)
        [⟨"usdx", 100⟩] 0).1 = Result.ok ⟨"uguu", 48⟩ ∧
    ¬ ((48 : Int) ≤ 50 - stepTiesAway 50 ⟨50000000000000000⟩) := by
  refine ⟨stepTiesAway_tie, by decide, ?_⟩
  rw [stepTiesAway_tie]
  decide

/-- Claim C8, amended. Whenever `generateBidAmount` returns a bid on a collateral
auction in reverse phase, the bid is denominated in `Lot.Denom` (so not in
`Bid.Denom` when the two differ) and its amount lies between zero and
`Lot.Amount - max(1, round(Lot.Amount * IncrementCollateral))`, where `round`
takes the exact product to the nearest integer, a tie going to the even
neighbour. -/
theorem generateBidAmount_collateral_reverse_range {R : Type} (P : RandOps R)
    (hP : P.Bounded) (r : R) (params : Params) (a : CollateralAuction) (bal : Coins) (t : Int)
    (c : Coin) (hrev : a.Bid.Amount = a.MaxBid.Amount)
    (hc : (generateBidAmount P r params (Auction.collateral a) bal t).1 = Result.ok c) :
    c.Denom = a.Lot.Denom ∧ (a.Lot.Denom ≠ a.Bid.Denom → c.Denom ≠ a.Bid.Denom) ∧
      0 ≤ c.Amount ∧
      c.Amount ≤ a.Lot.Amount - stepTiesToEven a.Lot.Amount params.IncrementCollateral := by
  rw [← minStep_eq_stepTiesToEven]
  rw [generateBidAmount_collateral_reverse P r params a bal t hrev] at hc
  split_ifs at hc with h1 h2 h3
  have hd := hP r (a.Lot.Amount - minStep a.Lot.Amount params.IncrementCollateral + 1 - 0)
    (by omega)
  simp only [Result.ok.injEq] at hc
  subst hc
  exact ⟨rfl, fun h => h, by simp only; omega, by simp only; omega⟩

theorem generateBidAmount_collateral_reverse_range_witness :
    (generateBidAmount lcg 4242 ⟨⟨0⟩, ⟨0⟩, ⟨100000000000000000⟩⟩
        (Auction.collateral ⟨⟨"usdx", 100⟩, ⟨"uguu", 1000⟩, ⟨"usdx", 100⟩⟩)
        [⟨"usdx", 100⟩] 0).1 = Result.ok ⟨"uguu", 638⟩ ∧
    (638 : Int) ≤ 1000 - stepTiesToEven 1000 ⟨100000000000000000⟩ :=
  ⟨by decide,
   (generateBidAmount_collateral_reverse_range lcg lcg_bounded 4242
      ⟨⟨0⟩, ⟨0⟩, ⟨100000000000000000⟩⟩ ⟨⟨"usdx", 100⟩, ⟨"uguu", 1000⟩, ⟨"usdx", 100⟩⟩
      [⟨"usdx", 100⟩] 0 ⟨"uguu", 638⟩ (by decide) (by decide)).2.2.2⟩

/-- Claim C9, as the claim states it, fails: the product `50 * 0.05` is the tie
2.5, which the source rounds to 2 where rounding away from zero gives 3; the
minimum step is 2, and on the surplus auction with a bid of 50 gov and a balance
of 1000 gov the amount 52, below 53, is returned. -/
theorem minStep_tie_not_rounded_away_from_zero :
    ((NewDecFromInt 50).Mul ⟨50000000000000000⟩).RoundInt = 2 ∧
    roundHalfAwayFromZero ((50 : ℚ) * Dec.toRat ⟨50000000000000000⟩) = 3 ∧
    minStep 50 ⟨50000000000000000⟩ = 2 ∧
    (generateBidAmount lcg 0 ⟨⟨50000000000000000⟩, ⟨0⟩, ⟨0⟩⟩
        (Auction.surplus ⟨⟨"gov", 50⟩, ⟨"usdx", 10⟩⟩) [⟨"gov", 1000⟩] 0).1 =
      Result.ok ⟨"gov", 52⟩ := by
  refine ⟨by decide, ?_, by decide, by decide⟩
  norm_num [roundHalfAwayFromZero, Dec.toRat]

/-- Claim C9, amended. Every minimum increment or decrement that
`generateBidAmount` computes is `max(1, r)`, where `r` is the exact product of
the amount and the increment fraction rounded to the nearest integer, a tie going
to the even neighbour (2.5 rounds to 2). This step fixes the whole outcome of each
of the four computations: the decrement of the debt case and of the reverse-phase
collateral case, the increment of the surplus case and of the forward-phase
collateral case. On the surplus auction with a bid of 50, an increment of 0.05 and
a balance of 1000 gov the minimum new bid is 52 and the returned amount lies in
`[52, 1000]`. -/
theorem minStep_eq_max_one_roundHalfEven {R : Type} (P : RandOps R) (hP : P.Bounded) (r : R) :
    (∀ (amount : Int) (inc : Dec),
      minStep amount inc = max 1 (roundHalfEven ((amount : ℚ) * inc.toRat))) ∧
    (∀ (params : Params) (a : SurplusAuction) (bal : Coins) (t : Int),
      (generateBidAmount P r params (Auction.surplus a) bal t).1 =
          Result.error Err.errorNotEnoughCoins ↔
        bal.AmountOf a.Bid.Denom < a.Bid.Amount +
          max 1 (roundHalfEven ((a.Bid.Amount : ℚ) * params.IncrementSurplus.toRat))) ∧
    (∀ (params : Params) (a : DebtAuction) (bal : Coins) (t : Int) (c : Coin),
      (generateBidAmount P r params (Auction.debt a) bal t).1 = Result.ok c →
        c.Amount ≤ a.Lot.Amount -
          max 1 (roundHalfEven ((a.Lot.Amount : ℚ) * params.IncrementDebt.toRat))) ∧
    (∀ (params : Params) (a : SurplusAuction) (bal : Coins) (t : Int),
      a.Bid = ⟨"gov", 50⟩ → params.IncrementSurplus = ⟨50000000000000000⟩ →
      bal = [⟨"gov", 1000⟩] →
      a.Bid.Amount + minStep a.Bid.Amount params.IncrementSurplus = 52 ∧
      ∃ amt, (generateBidAmount P r params (Auction.surplus a) bal t).1 =
        Result.ok ⟨"gov", amt⟩ ∧ 52 ≤ amt ∧ amt ≤ 1000) ∧
    (∀ (params : Params) (a : DebtAuction) (bal : Coins) (t : Int),
      generateBidAmount P r params (Auction.debt a) bal t =
        if bal.AmountOf a.Bid.Denom < a.Bid.Amount then
          (Result.error Err.errorNotEnoughCoins, r)
        else if a.Lot.Amount = 0 then (Result.error Err.errorCantReceiveBids, r)
        else if a.Lot.Amount - stepTiesToEven a.Lot.Amount params.IncrementDebt < 0 then
          (Result.panic Err.minLargerThanMax, r)
        else
          (Result.ok ⟨a.Lot.Denom,
              (P.Rand r
                (a.Lot.Amount - stepTiesToEven a.Lot.Amount params.IncrementDebt + 1 - 0)).1
                + 0⟩,
            (P.Rand r
              (a.Lot.Amount - stepTiesToEven a.Lot.Amount params.IncrementDebt + 1 - 0)).2)) ∧
    (∀ (params : Params) (a : SurplusAuction) (bal : Coins) (t : Int),
      generateBidAmount P r params (Auction.surplus a) bal t =
        if bal.AmountOf a.Bid.Denom <
            a.Bid.Amount + stepTiesToEven a.Bid.Amount params.IncrementSurplus
        then (Result.error Err.errorNotEnoughCoins, r)
        else
          (Result.ok ⟨a.Bid.Denom,
              (P.Rand r (bal.AmountOf a.Bid.Denom + 1 -
                (a.Bid.Amount + stepTiesToEven a.Bid.Amount params.IncrementSurplus))).1 +
                (a.Bid.Amount + stepTiesToEven a.Bid.Amount params.IncrementSurplus)⟩,
            (P.Rand r (bal.AmountOf a.Bid.Denom + 1 -
                (a.Bid.Amount + stepTiesToEven a.Bid.Amount params.IncrementSurplus))).2)) ∧
    (∀ (params : Params) (a : CollateralAuction) (bal : Coins) (t : Int),
      a.Bid.Amount = a.MaxBid.Amount →
      generateBidAmount P r params (Auction.collateral a) bal t =
        if bal.AmountOf a.Bid.Denom <
            MinInt (a.Bid.Amount + stepTiesToEven a.Bid.Amount params.IncrementCollateral)
              a.MaxBid.Amount
        then (Result.error Err.errorNotEnoughCoins, r)
        else if a.Lot.Amount = 0 then (Result.error Err.errorCantReceiveBids, r)
        else if a.Lot.Amount - stepTiesToEven a.Lot.Amount params.IncrementCollateral < 0 then
          (Result.panic Err.minLargerThanMax, r)
        else
          (Result.ok ⟨a.Lot.Denom,
              (P.Rand r (a.Lot.Amount -
                stepTiesToEven a.Lot.Amount params.IncrementCollateral + 1 - 0)).1 + 0⟩,
            (P.Rand r (a.Lot.Amount -
                stepTiesToEven a.Lot.Amount params.IncrementCollateral + 1 - 0)).2)) ∧
    (∀ (params : Params) (a : CollateralAuction) (bal : Coins) (t : Int),
      a.Bid.Amount ≠ a.MaxBid.Amount →
      generateBidAmount P r params (Auction.collateral a) bal t =
        if bal.AmountOf a.Bid.Denom <
            MinInt (a.Bid.Amount + stepTiesToEven a.Bid.Amount params.IncrementCollateral)
              a.MaxBid.Amount
        then (Result.error Err.errorNotEnoughCoins, r)
        else
          let lo :=
            MinInt (a.Bid.Amount + stepTiesToEven a.Bid.Amount params.IncrementCollateral)
              a.MaxBid.Amount
          let hi := MinInt (bal.AmountOf a.Bid.Denom) a.MaxBid.Amount
          let drawn := P.Rand r (hi + 1 - lo)
          let flip := P.Intn drawn.2 2
          if flip.1 = 0 ∧ bal.AmountOf a.Bid.Denom ≥ a.MaxBid.Amount then
            (Result.ok ⟨a.Bid.Denom, a.MaxBid.Amount⟩, flip.2)
          else (Result.ok ⟨a.Bid.Denom, drawn.1 + lo⟩, flip.2)) := by
  have hstep : ∀ (amount : Int) (inc : Dec),
      minStep amount inc = max 1 (roundHalfEven ((amount : ℚ) * inc.toRat)) := by
    intro amount inc
    rw [← RoundInt_eq_roundHalfEven, ← MaxInt_eq_max]
    rfl
  refine ⟨hstep, ?_, ?_, ?_, ?_, ?_, ?_, ?_⟩
  · intro params a bal t
    rw [← hstep, generateBidAmount_surplus]
    split_ifs with h1
    · exact ⟨fun _ => h1, fun _ => rfl⟩
    · exact ⟨(fun h => by cases h), fun h => absurd h h1⟩
  · intro params a bal t c hc
    rw [← hstep]
    rw [generateBidAmount_debt] at hc
    split_ifs at hc with h1 h2 h3
    have hd := hP r (a.Lot.Amount - minStep a.Lot.Amount params.IncrementDebt + 1 - 0)
      (by omega)
    simp only [Result.ok.injEq] at hc
    subst hc
    simp only
    omega
  · intro params a bal t hb hinc hbl
    have h52 : (50 : Int) + minStep 50 ⟨50000000000000000⟩ = 52 := by decide
    have hbal : Coins.AmountOf [⟨"gov", 1000⟩] "gov" = 1000 := by decide
    rw [generateBidAmount_surplus]
    simp only [hb, hinc, hbl, h52, hbal]
    have hd := hP r (1000 + 1 - 52) (by norm_num)
    refine ⟨trivial, (P.Rand r (1000 + 1 - 52)).1 + 52, ?_, by omega, by omega⟩
    simp
  · intro params a bal t
    rw [← minStep_eq_stepTiesToEven]
    exact generateBidAmount_debt P r params a bal t
  · intro params a bal t
    rw [← minStep_eq_stepTiesToEven]
    exact generateBidAmount_surplus P r params a bal t
  · intro params a bal t hrev
    rw [← minStep_eq_stepTiesToEven, ← minStep_eq_stepTiesToEven]
    exact generateBidAmount_collateral_reverse P r params a bal t hrev
  · intro params a bal t hfwd
    rw [← minStep_eq_stepTiesToEven]
    exact generateBidAmount_collateral_forward P r params a bal t hfwd

theorem minStep_eq_max_one_roundHalfEven_witness :
    ∃ amt, (generateBidAmount lcg 31337 ⟨⟨50000000000000000⟩, ⟨0⟩, ⟨0⟩⟩
        (Auction.surplus ⟨⟨"gov", 50⟩, ⟨"usdx", 10⟩⟩) [⟨"gov", 1000⟩] 0).1 =
      Result.ok ⟨"gov", amt⟩ ∧ 52 ≤ amt ∧ amt ≤ 1000 :=
  ((minStep_eq_max_one_roundHalfEven lcg lcg_bounded 31337).2.2.2.1
    ⟨⟨50000000000000000⟩, ⟨0⟩, ⟨0⟩⟩ ⟨⟨"gov", 50⟩, ⟨"usdx", 10⟩⟩ [⟨"gov", 1000⟩] 0
    rfl rfl rfl).2

/-- Claim C10. On a debt auction `generateBidAmount` fails with
`errorNotEnoughCoins` exactly when the balance in the bid denomination is below
`Bid.Amount`, and with `errorCantReceiveBids` exactly when the balance reaches
`Bid.Amount` and `Lot.Amount` is zero; the funds check comes first, so an
underfunded bidder on a zero lot gets `errorNotEnoughCoins`; a denomination
absent from the balance counts as amount zero. -/
theorem generateBidAmount_debt_errors {R : Type} (P : RandOps R) (r : R) (params : Params)
    (a : DebtAuction) (bal : Coins) (t : Int) :
    ((generateBidAmount P r params (Auction.debt a) bal t).1 =
        Result.error Err.errorNotEnoughCoins ↔ bal.AmountOf a.Bid.Denom < a.Bid.Amount) ∧
    ((generateBidAmount P r params (Auction.debt a) bal t).1 =
        Result.error Err.errorCantReceiveBids ↔
      bal.AmountOf a.Bid.Denom ≥ a.Bid.Amount ∧ a.Lot.Amount = 0) ∧
    (a.Lot.Amount = 0 → bal.AmountOf a.Bid.Denom < a.Bid.Amount →
      (generateBidAmount P r params (Auction.debt a) bal t).1 =
        Result.error Err.errorNotEnoughCoins) ∧
    ((∀ c ∈ bal, c.Denom ≠ a.Bid.Denom) → bal.AmountOf a.Bid.Denom = 0) ∧
    ((∀ c ∈ bal, c.Denom ≠ a.Bid.Denom) → 0 < a.Bid.Amount →
      (generateBidAmount P r params (Auction.debt a) bal t).1 =
        Result.error Err.errorNotEnoughCoins) := by
  have hfunds : (generateBidAmount P r params (Auction.debt a) bal t).1 =
      Result.error Err.errorNotEnoughCoins ↔ bal.AmountOf a.Bid.Denom < a.Bid.Amount := by
    rw [generateBidAmount_debt]
    split_ifs with h1 h2 h3
    · exact ⟨fun _ => h1, fun _ => rfl⟩
    · exact ⟨(fun h => by cases h), fun h => absurd h h1⟩
    · exact ⟨(fun h => by cases h), fun h => absurd h h1⟩
    · exact ⟨(fun h => by cases h), fun h => absurd h h1⟩
  refine ⟨hfunds, ?_, fun _ h => hfunds.2 h, AmountOf_absent bal a.Bid.Denom, ?_⟩
  · rw [generateBidAmount_debt]
    split_ifs with h1 h2 h3
    · exact ⟨(fun h => by cases h), fun h => by omega⟩
    · exact ⟨fun _ => ⟨by omega, h2⟩, fun _ => rfl⟩
    · exact ⟨(fun h => by cases h), fun h => absurd h.2 h2⟩
    · exact ⟨(fun h => by cases h), fun h => absurd h.2 h2⟩
  · intro habs hpos
    apply hfunds.2
    rw [AmountOf_absent bal a.Bid.Denom habs]
    exact hpos

/-- Claim C11, as the claim states it with the rounding of the spec (ties away
from zero), fails: on a forward-phase collateral auction with a bid of 50, a cap
of 100 and an increment of 0.05 the minimum new bid of the claim is 53; a balance
of 52 usdx is below it, and `generateBidAmount` returns a bid of 52 instead of
`errorNotEnoughCoins`. -/
theorem collateral_funds_check_passes_below_minimum_of_ties_away :
    MinInt (50 + stepTiesAway 50 ⟨50000000000000000⟩) 100 = 53 ∧
    Coins.AmountOf [⟨"usdx", 52⟩] "usdx" <
      MinInt (50 + stepTiesAway 50 ⟨50000000000000000⟩) 100 ∧
    (generateBidAmount lcg 7 ⟨⟨0⟩, ⟨0⟩, ⟨50000000000000000⟩⟩
        (Auction.collateral ⟨⟨"usdx", 50⟩, ⟨"uguu", 1000⟩, ⟨"usdx", 100⟩⟩)
        [⟨"usdx", 52⟩] 0).1 = Result.ok ⟨"usdx", 52⟩ ∧
    (generateBidAmount lcg 7 ⟨⟨0⟩, ⟨0⟩, ⟨50000000000000000⟩⟩
        (Auction.collateral ⟨⟨"usdx", 50⟩, ⟨"uguu", 1000⟩, ⟨"usdx", 100⟩⟩)
        [⟨"usdx", 52⟩] 0).1 ≠ Result.error Err.errorNotEnoughCoins := by
  rw [stepTiesAway_tie]
  decide

/-- Claim C11, amended. On a collateral auction `generateBidAmount` fails with
`errorNotEnoughCoins` exactly when the balance in the bid denomination is below
`minNewBid = min(Bid.Amount + max(1, round(Bid.Amount * IncrementCollateral)), MaxBid.Amount)`,
where `round` takes the exact product to the nearest integer, a tie going to the
even neighbour, and with `errorCantReceiveBids` exactly when the balance reaches
`minNewBid`, the auction is in reverse phase and `Lot.Amount` is zero; a
forward-phase auction with a zero lot is never reported as closed, and an
underfunded bidder on a closed reverse-phase auction gets `errorNotEnoughCoins`. -/
theorem generateBidAmount_collateral_errors {R : Type} (P : RandOps R) (r : R)
    (params : Params) (a : CollateralAuction) (bal : Coins) (t : Int) :
    ((generateBidAmount P r params (Auction.collateral a) bal t).1 =
        Result.error Err.errorNotEnoughCoins ↔
      bal.AmountOf a.Bid.Denom <
        MinInt (a.Bid.Amount + stepTiesToEven a.Bid.Amount params.IncrementCollateral)
          a.MaxBid.Amount) ∧
    ((generateBidAmount P r params (Auction.collateral a) bal t).1 =
        Result.error Err.errorCantReceiveBids ↔
      (bal.AmountOf a.Bid.Denom ≥
        MinInt (a.Bid.Amount + stepTiesToEven a.Bid.Amount params.IncrementCollateral)
          a.MaxBid.Amount ∧
        a.IsReversePhase = true ∧ a.Lot.Amount = 0)) ∧
    (a.IsReversePhase = false → a.Lot.Amount = 0 →
      (generateBidAmount P r params (Auction.collateral a) bal t).1 ≠
        Result.error Err.errorCantReceiveBids) ∧
    (a.IsReversePhase = true → a.Lot.Amount = 0 →
      bal.AmountOf a.Bid.Denom <
        MinInt (a.Bid.Amount + stepTiesToEven a.Bid.Amount params.IncrementCollateral)
          a.MaxBid.Amount →
      (generateBidAmount P r params (Auction.collateral a) bal t).1 =
        Result.error Err.errorNotEnoughCoins) := by
  rw [← minStep_eq_stepTiesToEven]
  have hfunds := generateBidAmount_collateral_notEnough_iff P r params a bal t
  have hclosed := generateBidAmount_collateral_cantReceive_iff P r params a bal t
  have hphase : a.IsReversePhase = true ↔ a.Bid.Amount = a.MaxBid.Amount := by
    simp [CollateralAuction.IsReversePhase]
  refine ⟨hfunds, ?_, ?_, fun _ _ h => hfunds.2 h⟩
  · rw [hclosed, hphase]
  · intro hfwd _ hc
    have hrev := (hclosed.1 hc).2.1
    rw [hphase.2 hrev] at hfwd
    cases hfwd

/-- Claim C14. Under the invariants of the data model and non-negative
increments, every bid that `generateBidAmount` returns improves on the standing
one by at least one unit: on a debt auction and on a collateral auction in
reverse phase the returned lot amount is at most `Lot.Amount - 1`; on a surplus
auction and on a collateral auction in forward phase the returned bid amount is
at least `Bid.Amount + 1`, the capped minimum of the forward phase staying above
the standing bid. -/
theorem generateBidAmount_improves {R : Type} (P : RandOps R) (hP : P.Bounded) (r : R)
    (params : Params) (auc : Auction) (bal : Coins) (t : Int) (c : Coin)
    (hinv : auc.Invariant)
    (_hinc : 0 ≤ params.IncrementDebt.i ∧ 0 ≤ params.IncrementSurplus.i ∧
      0 ≤ params.IncrementCollateral.i)
    (hc : (generateBidAmount P r params auc bal t).1 = Result.ok c) :
    (∀ a, auc = Auction.debt a → c.Amount ≤ a.Lot.Amount - 1) ∧
    (∀ a, auc = Auction.surplus a → c.Amount ≥ a.Bid.Amount + 1) ∧
    (∀ a, auc = Auction.collateral a → a.Bid.Amount = a.MaxBid.Amount →
      c.Amount ≤ a.Lot.Amount - 1) ∧
    (∀ a, auc = Auction.collateral a → a.Bid.Amount ≠ a.MaxBid.Amount →
      MinInt (a.Bid.Amount + minStep a.Bid.Amount params.IncrementCollateral) a.MaxBid.Amount
        ≥ a.Bid.Amount + 1 ∧
      c.Amount ≥ a.Bid.Amount + 1) := by
  refine ⟨?_, ?_, ?_, ?_⟩
  · rintro a rfl
    have h1 := minStep_ge_one a.Lot.Amount params.IncrementDebt
    rw [generateBidAmount_debt] at hc
    split_ifs at hc with c1 c2 c3
    have hd := hP r (a.Lot.Amount - minStep a.Lot.Amount params.IncrementDebt + 1 - 0)
      (by omega)
    simp only [Result.ok.injEq] at hc
    subst hc
    simp only
    omega
  · rintro a rfl
    have h1 := minStep_ge_one a.Bid.Amount params.IncrementSurplus
    rw [generateBidAmount_surplus] at hc
    split_ifs at hc with c1
    have hd := hP r (bal.AmountOf a.Bid.Denom + 1 -
      (a.Bid.Amount + minStep a.Bid.Amount params.IncrementSurplus)) (by omega)
    simp only [Result.ok.injEq] at hc
    subst hc
    simp only
    omega
  · rintro a rfl hrev
    have h1 := minStep_ge_one a.Lot.Amount params.IncrementCollateral
    rw [generateBidAmount_collateral_reverse P r params a bal t hrev] at hc
    split_ifs at hc with c1 c2 c3
    have hd := hP r (a.Lot.Amount - minStep a.Lot.Amount params.IncrementCollateral + 1 - 0)
      (by omega)
    simp only [Result.ok.injEq] at hc
    subst hc
    simp only
    omega
  · rintro a rfl hfwd
    have h1 := minStep_ge_one a.Bid.Amount params.IncrementCollateral
    have hle : a.Bid.Amount ≤ a.MaxBid.Amount := hinv.2.2
    have hlo : MinInt (a.Bid.Amount + minStep a.Bid.Amount params.IncrementCollateral)
        a.MaxBid.Amount ≥ a.Bid.Amount + 1 := by
      rw [MinInt_eq_min]
      omega
    refine ⟨hlo, ?_⟩
    rw [generateBidAmount_collateral_forward P r params a bal t hfwd] at hc
    by_cases c1 : bal.AmountOf a.Bid.Denom <
        MinInt (a.Bid.Amount + minStep a.Bid.Amount params.IncrementCollateral) a.MaxBid.Amount
    · rw [if_pos c1] at hc
      cases hc
    · rw [if_neg c1] at hc
      have hhi : MinInt (bal.AmountOf a.Bid.Denom) a.MaxBid.Amount =
          min (bal.AmountOf a.Bid.Denom) a.MaxBid.Amount := MinInt_eq_min _ _
      have hcap := collateral_minNewBid_le a params.IncrementCollateral
      have hd := hP r (MinInt (bal.AmountOf a.Bid.Denom) a.MaxBid.Amount + 1 -
        MinInt (a.Bid.Amount + minStep a.Bid.Amount params.IncrementCollateral)
          a.MaxBid.Amount) (by omega)
      simp only at hc
      split_ifs at hc with hflip
      · simp only [Result.ok.injEq] at hc
        subst hc
        simp only
        omega
      · simp only [Result.ok.injEq] at hc
        subst hc
        simp only
        omega

theorem generateBidAmount_improves_witness :
    (generateBidAmount lcg 12346 ⟨⟨0⟩, ⟨0⟩, ⟨100000000000000000⟩⟩
        (Auction.collateral ⟨⟨"usdx", 80⟩, ⟨"uguu", 1000⟩, ⟨"usdx", 100⟩⟩)
        [⟨"usdx", 100⟩] 0).1 = Result.ok ⟨"usdx", 97⟩ ∧
    (97 : Int) ≥ 80 + 1 :=
  ⟨by decide,
   ((generateBidAmount_improves lcg lcg_bounded 12346 ⟨⟨0⟩, ⟨0⟩, ⟨100000000000000000⟩⟩
      (Auction.collateral ⟨⟨"usdx", 80⟩, ⟨"uguu", 1000⟩, ⟨"usdx", 100⟩⟩) [⟨"usdx", 100⟩] 0
      ⟨"usdx", 97⟩ (by decide) (by decide) (by decide)).2.2.2
    ⟨⟨"usdx", 80⟩, ⟨"uguu", 1000⟩, ⟨"usdx", 100⟩⟩ rfl (by decide)).2⟩

/-- Claim C15. On a collateral auction with `Bid.Amount < MaxBid.Amount`, a
bidder whose balance in the bid denomination reaches `MaxBid.Amount` always gets
a bid, whatever the increment, and when the coin flip after the draw is 0 the
amount is exactly `MaxBid.Amount`; a bidder whose balance reaches the minimum new
bid and stays below `MaxBid.Amount` gets the drawn amount, whatever the flip, and
that amount is below `MaxBid.Amount`. -/
theorem generateBidAmount_collateral_cap_reachable {R : Type} (P : RandOps R)
    (hP : P.Bounded) (r : R) (params : Params) (a : CollateralAuction) (bal : Coins) (t : Int)
    (hfwd : a.Bid.Amount < a.MaxBid.Amount) :
    (bal.AmountOf a.Bid.Denom ≥ a.MaxBid.Amount →
      ∃ c r1, generateBidAmount P r params (Auction.collateral a) bal t = (Result.ok c, r1) ∧
        c.Denom = a.Bid.Denom ∧
        ((P.Intn (RandIntInclusive P r
            (MinInt (a.Bid.Amount + minStep a.Bid.Amount params.IncrementCollateral)
              a.MaxBid.Amount)
            (MinInt (bal.AmountOf a.Bid.Denom) a.MaxBid.Amount)).2 2).1 = 0 →
          c.Amount = a.MaxBid.Amount)) ∧
    (bal.AmountOf a.Bid.Denom < a.MaxBid.Amount →
      bal.AmountOf a.Bid.Denom ≥
        MinInt (a.Bid.Amount + minStep a.Bid.Amount params.IncrementCollateral)
          a.MaxBid.Amount →
      ∃ v, (RandIntInclusive P r
            (MinInt (a.Bid.Amount + minStep a.Bid.Amount params.IncrementCollateral)
              a.MaxBid.Amount)
            (MinInt (bal.AmountOf a.Bid.Denom) a.MaxBid.Amount)).1 = Result.ok v ∧
        (generateBidAmount P r params (Auction.collateral a) bal t).1 =
          Result.ok ⟨a.Bid.Denom, v⟩ ∧
        v < a.MaxBid.Amount) := by
  have hne : a.Bid.Amount ≠ a.MaxBid.Amount := by omega
  have hcap := collateral_minNewBid_le a params.IncrementCollateral
  have hhi : MinInt (bal.AmountOf a.Bid.Denom) a.MaxBid.Amount =
      min (bal.AmountOf a.Bid.Denom) a.MaxBid.Amount := MinInt_eq_min _ _
  constructor
  · intro hbal
    rw [generateBidAmount_collateral_forward P r params a bal t hne, if_neg (by omega),
      RandIntInclusive_of_le P r _ _ (by omega)]
    simp only
    split_ifs with hflip
    · exact ⟨_, _, rfl, rfl, fun _ => rfl⟩
    · refine ⟨_, _, rfl, rfl, fun h0 => ?_⟩
      exact absurd ⟨h0, hbal⟩ hflip
  · intro hlt hge
    have hd := hP r (MinInt (bal.AmountOf a.Bid.Denom) a.MaxBid.Amount + 1 -
      MinInt (a.Bid.Amount + minStep a.Bid.Amount params.IncrementCollateral)
        a.MaxBid.Amount) (by omega)
    rw [generateBidAmount_collateral_forward P r params a bal t hne, if_neg (by omega),
      RandIntInclusive_of_le P r _ _ (by omega)]
    refine ⟨_, rfl, ?_, by omega⟩
    simp only
    rw [if_neg (by omega)]

theorem generateBidAmount_collateral_cap_reachable_witness :
    ∃ c r1, generateBidAmount lcg 12345 ⟨⟨0⟩, ⟨0⟩, ⟨500000000000000000⟩⟩
        (Auction.collateral ⟨⟨"usdx", 80⟩, ⟨"uguu", 1000⟩, ⟨"usdx", 100⟩⟩)
        [⟨"usdx", 100⟩] 0 = (Result.ok c, r1) ∧
      c.Denom = "usdx" ∧
      ((lcg.Intn (RandIntInclusive lcg 12345
          (MinInt (80 + minStep 80 ⟨500000000000000000⟩) 100)
          (MinInt (Coins.AmountOf [⟨"usdx", 100⟩] "usdx") 100)).2 2).1 = 0 →
        c.Amount = 100) :=
  (generateBidAmount_collateral_cap_reachable lcg lcg_bounded 12345
    ⟨⟨0⟩, ⟨0⟩, ⟨500000000000000000⟩⟩ ⟨⟨"usdx", 80⟩, ⟨"uguu", 1000⟩, ⟨"usdx", 100⟩⟩
    [⟨"usdx", 100⟩] 0 (by decide)).1 (by decide)

/-- Claim C16. For `inclusiveMin < exclusiveMax` and every state of the random
source, `RandInt` returns `inclusiveMin + d`, where `d` is the number the bounded
draw gives for the width `exclusiveMax - inclusiveMin`: it is the result of
`RandInt r 0 (exclusiveMax - inclusiveMin)` shifted by `inclusiveMin`, with the
same advanced source and no reduction of `d`; each value of
`[inclusiveMin, exclusiveMax)` comes from exactly one `d` in `[0, width)`. -/
theorem RandInt_shift {R : Type} (P : RandOps R) (r : R) (inclusiveMin exclusiveMax : Int)
    (hlt : inclusiveMin < exclusiveMax) :
    RandInt P r inclusiveMin exclusiveMax =
      (Result.ok (inclusiveMin + (P.Rand r (exclusiveMax - inclusiveMin)).1),
        (P.Rand r (exclusiveMax - inclusiveMin)).2) ∧
    (∃ d r1, RandInt P r 0 (exclusiveMax - inclusiveMin) = (Result.ok d, r1) ∧
      d = (P.Rand r (exclusiveMax - inclusiveMin)).1 ∧
      RandInt P r inclusiveMin exclusiveMax = (Result.ok (inclusiveMin + d), r1)) ∧
    (∀ v, inclusiveMin ≤ v → v < exclusiveMax →
      ∃! d, (0 ≤ d ∧ d < exclusiveMax - inclusiveMin) ∧ inclusiveMin + d = v) := by
  have hmain : RandInt P r inclusiveMin exclusiveMax =
      (Result.ok (inclusiveMin + (P.Rand r (exclusiveMax - inclusiveMin)).1),
        (P.Rand r (exclusiveMax - inclusiveMin)).2) := by
    rw [RandInt_of_lt P r _ _ hlt, add_comm]
  have hzero : RandInt P r 0 (exclusiveMax - inclusiveMin) =
      (Result.ok ((P.Rand r (exclusiveMax - inclusiveMin)).1),
        (P.Rand r (exclusiveMax - inclusiveMin)).2) := by
    rw [RandInt_of_lt P r _ _ (by omega)]
    simp
  refine ⟨hmain, ⟨_, _, hzero, rfl, hmain⟩, ?_⟩
  intro v h1 h2
  refine ⟨v - inclusiveMin, ⟨⟨by omega, by omega⟩, by omega⟩, ?_⟩
  rintro d ⟨-, hd⟩
  omega

theorem RandInt_shift_witness :
    RandInt lcg 7 (-5) 3 = (Result.ok (-5 + (lcg.Rand 7 (3 - -5)).1), (lcg.Rand 7 (3 - -5)).2) :=
  (RandInt_shift lcg 7 (-5) 3 (by decide)).1

/-- Claim C17. Whether `generateBidAmount` returns a bid, and which error it
reports, does not depend on the random source: on the same parameters, auction
and balance, two calls on any two sources and states both return a bid in the
same denomination, or both return the same error, or both raise the same error.
Hence a pairing that the callback of the search accepts cannot fail when
`generateBidAmount` is called again on it with another state of the source. -/
theorem generateBidAmount_outcome_independent_of_source {R1 R2 : Type} (P1 : RandOps R1)
    (P2 : RandOps R2) (r1 : R1) (r2 : R2) (params : Params) (auc : Auction) (bal : Coins)
    (t : Int) :
    ((∃ c1 c2, (generateBidAmount P1 r1 params auc bal t).1 = Result.ok c1 ∧
        (generateBidAmount P2 r2 params auc bal t).1 = Result.ok c2 ∧ c1.Denom = c2.Denom) ∨
      (∃ e, (generateBidAmount P1 r1 params auc bal t).1 = Result.error e ∧
        (generateBidAmount P2 r2 params auc bal t).1 = Result.error e) ∨
      (∃ e, (generateBidAmount P1 r1 params auc bal t).1 = Result.panic e ∧
        (generateBidAmount P2 r2 params auc bal t).1 = Result.panic e)) ∧
    ((placeBidPredicate P1 r1 params auc bal t).1 = Result.ok true →
      ∃ c, (generateBidAmount P2 r2 params auc bal t).1 = Result.ok c) := by
  have hshape := generateBidAmount_shape params auc bal t
  constructor
  · rcases hshape with ⟨d, hd⟩ | ⟨e, he⟩ | ⟨e, he⟩
    · obtain ⟨amt1, h1⟩ := hd R1 P1 r1
      obtain ⟨amt2, h2⟩ := hd R2 P2 r2
      exact Or.inl ⟨_, _, h1, h2, rfl⟩
    · exact Or.inr (Or.inl ⟨e, he R1 P1 r1, he R2 P2 r2⟩)
    · exact Or.inr (Or.inr ⟨e, he R1 P1 r1, he R2 P2 r2⟩)
  · intro hacc
    rcases hshape with ⟨d, hd⟩ | ⟨e, he⟩ | ⟨e, he⟩
    · obtain ⟨amt2, h2⟩ := hd R2 P2 r2
      exact ⟨_, h2⟩
    · have h1 := he R1 P1 r1
      unfold placeBidPredicate at hacc
      generalize generateBidAmount P1 r1 params auc bal t = res at h1 hacc
      obtain ⟨x, s⟩ := res
      simp only at h1
      subst h1
      simp only at hacc
      split_ifs at hacc
      cases hacc
    · have h1 := he R1 P1 r1
      unfold placeBidPredicate at hacc
      generalize generateBidAmount P1 r1 params auc bal t = res at h1 hacc
      obtain ⟨x, s⟩ := res
      simp only at h1
      subst h1
      cases hacc

/-- Claim C18. On a collateral auction in reverse phase, with a non-negative
increment, the minimum new bid that `generateBidAmount` computes is
`MaxBid.Amount`; so the call fails with `errorNotEnoughCoins` exactly when the
balance in the bid denomination is below `MaxBid.Amount`, and any other balance
with the same amount of the bid denomination gets the same verdict. -/
theorem collateral_reverse_funds_check {R : Type} (P : RandOps R) (r : R) (params : Params)
    (a : CollateralAuction) (bal : Coins) (t : Int)
    (hrev : a.Bid.Amount = a.MaxBid.Amount) (_hinc : 0 ≤ params.IncrementCollateral.i) :
    MinInt (a.Bid.Amount + minStep a.Bid.Amount params.IncrementCollateral) a.MaxBid.Amount =
      a.MaxBid.Amount ∧
    ((generateBidAmount P r params (Auction.collateral a) bal t).1 =
        Result.error Err.errorNotEnoughCoins ↔
      bal.AmountOf a.Bid.Denom < a.MaxBid.Amount) ∧
    (∀ bal2 : Coins, bal2.AmountOf a.Bid.Denom = bal.AmountOf a.Bid.Denom →
      ((generateBidAmount P r params (Auction.collateral a) bal2 t).1 =
          Result.error Err.errorNotEnoughCoins ↔
        (generateBidAmount P r params (Auction.collateral a) bal t).1 =
          Result.error Err.errorNotEnoughCoins)) := by
  have hmin := collateral_reverse_minNewBid a params.IncrementCollateral hrev
  refine ⟨hmin, ?_, ?_⟩
  · rw [generateBidAmount_collateral_notEnough_iff, hmin]
  · intro bal2 h2
    rw [generateBidAmount_collateral_notEnough_iff, generateBidAmount_collateral_notEnough_iff,
      h2]

theorem collateral_reverse_funds_check_witness :
    (generateBidAmount lcg 5 ⟨⟨0⟩, ⟨0⟩, ⟨100000000000000000⟩⟩
        (Auction.collateral ⟨⟨"usdx", 100⟩, ⟨"uguu", 1000⟩, ⟨"usdx", 100⟩⟩)
        [⟨"usdx", 50⟩, ⟨"uguu", 1000000⟩] 0).1 = Result.error Err.errorNotEnoughCoins :=
  (collateral_reverse_funds_check lcg 5 ⟨⟨0⟩, ⟨0⟩, ⟨100000000000000000⟩⟩
    ⟨⟨"usdx", 100⟩, ⟨"uguu", 1000⟩, ⟨"usdx", 100⟩⟩ [⟨"usdx", 50⟩, ⟨"uguu", 1000000⟩] 0
    (by decide) (by decide)).2.1.2 (by decide)

/-! ## findValidAccountAuctionPair: the claims -/

/-- Claim C12. For a callback that answers by a total predicate `p` (and may
change its state), `findValidAccountAuctionPair` finds a pair exactly when some
account and some auction of the lists satisfy `p`; the pair returned satisfies
`p` and is the first in auction-major order over the lists as passed: every
satisfying pair of positions has a larger auction index, or the same auction
index and an account index at least as large. Otherwise nothing is found. So
whether a pair is found is the same after any permutation of either list. -/
theorem findValidAccountAuctionPair_first {S A B : Type} (p : A → B → Bool)
    (step : S → A → B → S) (accounts : List A) (auctions : List B) (s : S) :
    ((∃ pair, (findValidAccountAuctionPair accounts auctions
          (fun s a b => (p a b, step s a b)) s).1 = some pair) ↔
      ∃ acc ∈ accounts, ∃ auc ∈ auctions, p acc auc = true) ∧
    (∀ acc auc, (findValidAccountAuctionPair accounts auctions
          (fun s a b => (p a b, step s a b)) s).1 = some (acc, auc) →
      p acc auc = true ∧
      ∃ i j : Nat, auctions[i]? = some auc ∧ accounts[j]? = some acc ∧
        ∀ (i2 j2 : Nat) (auc2 : B) (acc2 : A), auctions[i2]? = some auc2 →
          accounts[j2]? = some acc2 → p acc2 auc2 = true → i < i2 ∨ (i = i2 ∧ j ≤ j2)) ∧
    ((findValidAccountAuctionPair accounts auctions
          (fun s a b => (p a b, step s a b)) s).1 = none ↔
      ∀ acc ∈ accounts, ∀ auc ∈ auctions, p acc auc = false) ∧
    (∀ (accounts2 : List A) (auctions2 : List B) (s2 : S),
      accounts.Perm accounts2 → auctions.Perm auctions2 →
      (findValidAccountAuctionPair accounts2 auctions2
          (fun s a b => (p a b, step s a b)) s2).1.isSome =
        (findValidAccountAuctionPair accounts auctions
          (fun s a b => (p a b, step s a b)) s).1.isSome) := by
  have hnone : ∀ (accs : List A) (aucs : List B) (s0 : S),
      (findValidAccountAuctionPair accs aucs (fun s a b => (p a b, step s a b)) s0).1 = none ↔
        ∀ acc ∈ accs, ∀ auc ∈ aucs, p acc auc = false := by
    intro accs aucs s0
    rw [findValidAccountAuctionPair_fst]
    exact findSome?_pair_eq_none p accs aucs
  refine ⟨?_, ?_, hnone accounts auctions s, ?_⟩
  · constructor
    · rintro ⟨pair, hpair⟩
      by_contra hno
      have hall : ∀ acc ∈ accounts, ∀ auc ∈ auctions, p acc auc = false := by
        intro acc hacc auc hauc
        by_contra hp
        exact hno ⟨acc, hacc, auc, hauc, by simpa using hp⟩
      rw [(hnone accounts auctions s).2 hall] at hpair
      cases hpair
    · rintro ⟨acc, hacc, auc, hauc, hp⟩
      rcases hres : (findValidAccountAuctionPair accounts auctions
          (fun s a b => (p a b, step s a b)) s).1 with _ | pair
      · have := (hnone accounts auctions s).1 hres acc hacc auc hauc
        rw [hp] at this
        cases this
      · exact ⟨pair, rfl⟩
  · intro acc auc h
    rw [findValidAccountAuctionPair_fst] at h
    exact findSome?_pair_first p accounts auctions acc auc h
  · intro accounts2 auctions2 s2 hperm1 hperm2
    have hiff : (findValidAccountAuctionPair accounts2 auctions2
          (fun s a b => (p a b, step s a b)) s2).1 = none ↔
        (findValidAccountAuctionPair accounts auctions
          (fun s a b => (p a b, step s a b)) s).1 = none := by
      rw [hnone, hnone]
      constructor
      · intro h acc hacc auc hauc
        exact h acc (hperm1.mem_iff.1 hacc) auc (hperm2.mem_iff.1 hauc)
      · intro h acc hacc auc hauc
        exact h acc (hperm1.mem_iff.2 hacc) auc (hperm2.mem_iff.2 hauc)
    rcases h1 : (findValidAccountAuctionPair accounts2 auctions2
        (fun s a b => (p a b, step s a b)) s2).1 with _ | x
    · rw [hiff.1 h1]
    · rcases h2 : (findValidAccountAuctionPair accounts auctions
          (fun s a b => (p a b, step s a b)) s).1 with _ | y
      · rw [hiff.2 h2] at h1
        cases h1
      · rfl

/-- Claim C13. With an empty account list, or with an empty auction list,
`findValidAccountAuctionPair` finds nothing and never invokes the callback: the
state of an arbitrary callback is left as it was, and the log of the recording
callback stays empty (while it is not empty as soon as both lists have an
element). -/
theorem findValidAccountAuctionPair_empty {S A B : Type} (cb : S → A → B → Bool × S) (s : S)
    (p : A → B → Bool) (accounts : List A) (auctions : List B) :
    findValidAccountAuctionPair ([] : List A) auctions cb s = (none, s) ∧
    findValidAccountAuctionPair accounts ([] : List B) cb s = (none, s) ∧
    findValidAccountAuctionPair ([] : List A) auctions (recordCalls p) [] = (none, []) ∧
    findValidAccountAuctionPair accounts ([] : List B) (recordCalls p) [] = (none, []) ∧
    (∀ (acc : A) (auc : B),
      (findValidAccountAuctionPair (acc :: accounts) (auc :: auctions)
        (recordCalls p) []).2 ≠ []) := by
  refine ⟨findValidAccountAuctionPair_nil_accounts cb auctions s, rfl,
    findValidAccountAuctionPair_nil_accounts (recordCalls p) auctions [], rfl, ?_⟩
  intro acc auc
  obtain ⟨l, hl⟩ := findValidAccountAuctionPair_recordCalls_nonempty p acc accounts auc auctions
  rw [hl]
  exact List.cons_ne_nil _ _

end Simulation
